import Mathlib

/-!
Verification of the content-negotiation, middleware, session and body-decoding
pipeline of the `webserver` package (github.com/4thPlanet/webserver).

The Go sources are shallowly embedded:
* Go strings are `List Char` (`GoStr`); `strings.Split`, `strings.TrimSpace`
  are re-implemented with Go's semantics.
* `sort.Slice` is embedded as the pdqsort algorithm of the Go ≥ 1.19 standard
  library (`sort/zsortfunc.go`), operating on a `List` through index reads and
  swaps exactly as the Go code does.  All loops carry explicit fuel; every
  fuel argument passed by the wrappers below is large enough that fuel never
  runs out (each loop iteration strictly shrinks the measure noted at its
  definition).
* `strconv.ParseFloat` and other foreign functions (`mime.ParseMediaType`,
  `json.Unmarshal`) are parameters of the embedded functions; a concrete
  model (`goParseFloat`, covering finite decimal literals) instantiates them
  on concrete inputs.
* fallible Go code returns `Option`/`Except`; run-time panics (failed type
  assertions, out-of-range slice indexing) are `Except` errors.
-/

set_option maxRecDepth 20000

namespace Webserver

/-- Go strings, modelled as lists of characters (all inputs of interest are ASCII,
so Go's byte-oriented operations coincide with character operations). -/
abbrev GoStr := List Char

/-- `pat` is an initial segment of `s` (used to locate separator occurrences). -/
def strStarts : GoStr → GoStr → Bool
  | _, [] => true
  | [], _ :: _ => false
  | c :: s, p :: pat => c = p && strStarts s pat

/-- Worker for `goSplit`; `fuel ≥ s.length` suffices (each step consumes
at least one character of `s`). -/
def goSplitAux (sep : GoStr) : ℕ → GoStr → GoStr → List GoStr
  | 0, acc, s => [acc.reverse ++ s]
  | _ + 1, acc, [] => [acc.reverse]
  | fuel + 1, acc, c :: rest =>
    if strStarts (c :: rest) sep then
      acc.reverse :: goSplitAux sep fuel [] ((c :: rest).drop sep.length)
    else
      goSplitAux sep fuel (c :: acc) rest

/-- Go `strings.Split(s, sep)` for a nonempty separator: split around each
non-overlapping instance of `sep`, scanning left to right.  (The sources only
ever split on `","`, `";q="` and `"/"`.) -/
def goSplit (s sep : GoStr) : List GoStr :=
  goSplitAux sep (s.length + 1) [] s

theorem goSplitAux_ne_nil (sep : GoStr) :
    ∀ (fuel : ℕ) (acc s : GoStr), goSplitAux sep fuel acc s ≠ [] := by
  intro fuel
  induction fuel with
  | zero => intro acc s; simp [goSplitAux]
  | succ n ih =>
    intro acc s
    cases s with
    | nil => simp [goSplitAux]
    | cons c rest =>
      simp only [goSplitAux]
      split
      · simp
      · exact ih _ _

/-- `strings.Split` always returns at least one element. -/
theorem goSplit_ne_nil (s sep : GoStr) : goSplit s sep ≠ [] :=
  goSplitAux_ne_nil sep _ _ _

/-- ASCII model of Go `unicode.IsSpace` (the header tokens of interest are ASCII). -/
def goIsSpace (c : Char) : Bool :=
  c = ' ' || c = '\t' || c = '\n' || c = '\x0b' || c = '\x0c' || c = '\r'

/-- Go `strings.TrimSpace`. -/
def goTrimSpace (s : GoStr) : GoStr :=
  ((s.dropWhile goIsSpace).reverse.dropWhile goIsSpace).reverse

/-- Decimal digit value. -/
def digitVal (c : Char) : Option ℕ :=
  if '0' ≤ c ∧ c ≤ '9' then some (c.toNat - '0'.toNat) else none

/-- Value of a (possibly empty) digit string; `none` on a non-digit. -/
def digitsVal (cs : GoStr) : Option ℕ :=
  cs.foldlM (fun a c => (digitVal c).map (fun d => a * 10 + d)) 0

/-- Split a string at the first `e`/`E` (exponent marker). -/
def splitAtExp : GoStr → GoStr × Option GoStr
  | [] => ([], none)
  | c :: r =>
    if c = 'e' ∨ c = 'E' then ([], some r)
    else
      let (m, e) := splitAtExp r
      (c :: m, e)

/-- Split a string at the first `.`. -/
def splitAtDot : GoStr → GoStr × Option GoStr
  | [] => ([], none)
  | c :: r =>
    if c = '.' then ([], some r)
    else
      let (m, e) := splitAtDot r
      (c :: m, e)

/-- Model of the foreign function `strconv.ParseFloat(s, 64)` on finite decimal
literals `[+-]digits[.digits][eE[+-]digits]` (at least one mantissa digit),
returning the exact rational value.  Go's additional forms (hex floats,
`Inf`/`NaN`, underscores) and the rounding to `float64` are outside the model;
the general theorems below are parametric in the parse function, so they do
not depend on this model. -/
def goParseFloat (s : GoStr) : Option ℚ :=
  let (neg, rest) :=
    match s with
    | '+' :: r => (false, r)
    | '-' :: r => (true, r)
    | r => (false, r)
  let (mant, expPart) := splitAtExp rest
  let (ipart, fpartOpt) := splitAtDot mant
  let fpart := fpartOpt.getD []
  if ipart = [] ∧ fpart = [] then none
  else
    match digitsVal ipart, digitsVal fpart with
    | some iv, some fv =>
      let num : ℕ := iv * 10 ^ fpart.length + fv
      let inum : ℤ := if neg then -(num : ℤ) else (num : ℤ)
      let den : ℕ := 10 ^ fpart.length
      match expPart with
      | none => some (mkRat inum den)
      | some es =>
        let (epos, edig) :=
          match es with
          | '+' :: r => (true, r)
          | '-' :: r => (false, r)
          | r => (true, r)
        if edig = [] then none
        else
          match digitsVal edig with
          | some ev =>
            some (if epos then mkRat (inum * ((10 ^ ev : ℕ) : ℤ)) den
                  else mkRat inum (den * 10 ^ ev))
          | none => none
    | _, _ => none

/-- The registered single-method capability contracts (`contentTypes.go` plus the
two interfaces declared in `server_test.go`).  A `reflect.Type` value in the
registry is one of these; Go's `nil` interface value is `Option.none`. -/
inductive RType
  | Htmler
  | Csver
  | Jsoner
  | TestXmler
  | TestTexter
deriving DecidableEq, Repr

/-- The capability registry (`Server.contentTypeInterfaces`) populated by `New`:
`html ↦ Htmler`, `csv ↦ Csver`, `json ↦ Jsoner`.  A missing key reads as the
zero value `nil` (`none`), exactly like a Go map of interface values. -/
def newServerInterfaces : GoStr → Option RType := fun t =>
  if t = ("html" : String).toList then some .Htmler
  else if t = ("csv" : String).toList then some .Csver
  else if t = ("json" : String).toList then some .Jsoner
  else none

/-- Go struct `acceptedContentType` (local to `determineResponseInterface`):
one comma-separated Accept entry with its parsed q-weight.  The Go zero value
is `{contentType: "", weight: 0}`. -/
structure AcceptedContentType where
  contentType : GoStr
  weight : ℚ
deriving DecidableEq, Repr

instance : Inhabited AcceptedContentType := ⟨⟨[], 0⟩⟩

/-- The comparator closure passed to `sort.Slice`:
`acceptedContentTypes[i].weight > acceptedContentTypes[j].weight`. -/
def lessACT (x y : AcceptedContentType) : Bool :=
  decide (x.weight > y.weight)

/-- HTTP verbs (`part_000`). -/
inductive Verb
  | GET | POST | PUT | DELETE | HEAD | OPTIONS | CONNECT | TRACE | PATCH
deriving DecidableEq, Repr

/-- `ParseVerb` (`part_000`): upper-case the method and match; the `error`
return is `none`. -/
def ParseVerb (s : GoStr) : Option Verb :=
  let u := s.map Char.toUpper
  if u = ("GET" : String).toList then some .GET
  else if u = ("POST" : String).toList then some .POST
  else if u = ("PUT" : String).toList then some .PUT
  else if u = ("DELETE" : String).toList then some .DELETE
  else if u = ("HEAD" : String).toList then some .HEAD
  else if u = ("OPTIONS" : String).toList then some .OPTIONS
  else if u = ("CONNECT" : String).toList then some .CONNECT
  else if u = ("TRACE" : String).toList then some .TRACE
  else if u = ("PATCH" : String).toList then some .PATCH
  else none

/-!
## `sort.Slice` (Go ≥ 1.19 standard library, `sort/zsortfunc.go`)

The slice being sorted is a `List E`; `data.Less(i, j)` compares the current
elements at positions `i` and `j` through the comparator closure, so it is
`less (sGet l i) (sGet l j)`; `data.Swap(i, j)` is `sSwap`.  Reads and writes
are always in range when reached (out-of-range reads return `default` and
out-of-range writes are dropped, matching the fact that the Go code never
performs them).
-/

namespace GoSort

variable {E : Type} [Inhabited E]

/-- Read a slice element. -/
def sGet (l : List E) (i : ℕ) : E := l.getD i default

/-- `data.Swap(i, j)`. -/
def sSwap (l : List E) (i j : ℕ) : List E :=
  (l.set i (sGet l j)).set j (sGet l i)

/-- Hints returned by `choosePivot_func`. -/
inductive SortedHint
  | increasing
  | decreasing
  | unknown
deriving DecidableEq, Repr

/-- Inner loop of `insertionSort_func`:
`for j := i; j > a && data.Less(j, j-1); j-- { data.Swap(j, j-1) }`.
Structural recursion on `j`. -/
def insertionSortInner (less : E → E → Bool) (a : ℕ) : List E → ℕ → List E
  | l, 0 => l
  | l, j + 1 =>
    if a < j + 1 ∧ less (sGet l (j + 1)) (sGet l j) = true then
      insertionSortInner less a (sSwap l (j + 1) j) j
    else l

/-- Outer loop of `insertionSort_func`: `for i := a+1; i < b; i++`.  One fuel
per iteration; `fuel ≥ b - a` suffices. -/
def insertionSortOuter (less : E → E → Bool) (a b : ℕ) : ℕ → List E → ℕ → List E
  | 0, l, _ => l
  | fuel + 1, l, i =>
    if i < b then
      insertionSortOuter less a b fuel (insertionSortInner less a l i) (i + 1)
    else l

/-- `insertionSort_func(data, a, b)`. -/
def insertionSortFunc (less : E → E → Bool) (a b : ℕ) (l : List E) : List E :=
  insertionSortOuter less a b (b - a) l (a + 1)

/-- `siftDown_func(data, lo, hi, first)`.  One fuel per loop iteration;
`fuel ≥ hi` suffices (the root index strictly increases). -/
def siftDownFunc (less : E → E → Bool) (first : ℕ) : ℕ → ℕ → ℕ → List E → List E
  | 0, _, _, l => l
  | fuel + 1, root, hi, l =>
    let child := 2 * root + 1
    if child ≥ hi then l
    else
      let child :=
        if child + 1 < hi ∧ less (sGet l (first + child)) (sGet l (first + child + 1)) = true
        then child + 1 else child
      if ¬ less (sGet l (first + root)) (sGet l (first + child)) = true then l
      else siftDownFunc less first fuel child hi (sSwap l (first + root) (first + child))

/-- Heap-building loop of `heapSort_func`: `for i := (hi-1)/2; i >= 0; i--`.
The counter is the number of remaining iterations (`i + 1`). -/
def heapBuild (less : E → E → Bool) (first hi : ℕ) : ℕ → List E → List E
  | 0, l => l
  | k + 1, l => heapBuild less first hi k (siftDownFunc less first hi k hi l)

/-- Pop loop of `heapSort_func`: `for i := hi-1; i >= 0; i--
{ data.Swap(first, first+i); siftDown(data, lo, i, first) }`. -/
def heapPop (less : E → E → Bool) (first : ℕ) : ℕ → List E → List E
  | 0, l => l
  | i + 1, l => heapPop less first i (siftDownFunc less first i 0 i (sSwap l first (first + i)))

/-- `heapSort_func(data, a, b)`. -/
def heapSortFunc (less : E → E → Bool) (a b : ℕ) (l : List E) : List E :=
  let first := a
  let hi := b - a
  heapPop less first hi (heapBuild less first hi ((hi - 1) / 2 + 1) l)

/-- `reverseRange_func(data, a, b)`; fuel ≥ `b` suffices. -/
def reverseRangeAux (a : ℕ) : ℕ → ℕ → ℕ → List E → List E
  | 0, _, _, l => l
  | fuel + 1, i, j, l =>
    if i < j then reverseRangeAux a fuel (i + 1) (j - 1) (sSwap l i j) else l

/-- `reverseRange_func(data, a, b)`. -/
def reverseRangeFunc (a b : ℕ) (l : List E) : List E :=
  reverseRangeAux a b a (b - 1) l

/-- `order2_func(data, a, b, &swaps)`: returns the two indices with the lesser
element first, bumping the swap counter. -/
def order2Func (less : E → E → Bool) (l : List E) (a b swaps : ℕ) : ℕ × ℕ × ℕ :=
  if less (sGet l b) (sGet l a) = true then (b, a, swaps + 1) else (a, b, swaps)

/-- `median_func(data, a, b, c, &swaps)`: index of the median of three. -/
def medianFunc (less : E → E → Bool) (l : List E) (a b c swaps : ℕ) : ℕ × ℕ :=
  let (a1, b1, s1) := order2Func less l a b swaps
  let (b2, _, s2) := order2Func less l b1 c s1
  let (_, b3, s3) := order2Func less l a1 b2 s2
  (b3, s3)

/-- `medianAdjacent_func(data, a, &swaps)` = `median_func(data, a-1, a, a+1, &swaps)`. -/
def medianAdjacentFunc (less : E → E → Bool) (l : List E) (a swaps : ℕ) : ℕ × ℕ :=
  medianFunc less l (a - 1) a (a + 1) swaps

/-- `choosePivot_func(data, a, b)` (shortestNinther = 50, maxSwaps = 12). -/
def choosePivotFunc (less : E → E → Bool) (a b : ℕ) (l : List E) : ℕ × SortedHint :=
  let length := b - a
  let i := a + length / 4 * 1
  let j := a + length / 4 * 2
  let k := a + length / 4 * 3
  let (jj, swaps) :=
    if length ≥ 8 then
      if length ≥ 50 then
        let (i1, s1) := medianAdjacentFunc less l i 0
        let (j1, s2) := medianAdjacentFunc less l j s1
        let (k1, s3) := medianAdjacentFunc less l k s2
        medianFunc less l i1 j1 k1 s3
      else
        medianFunc less l i j k 0
    else (j, 0)
  if swaps = 0 then (jj, SortedHint.increasing)
  else if swaps = 12 then (jj, SortedHint.decreasing)
  else (jj, SortedHint.unknown)

/-- Advance `i` while `i <= j && data.Less(i, a)` (first phase of the partition
loops); fuel ≥ `j + 1` suffices. -/
def partAdvanceI (less : E → E → Bool) (l : List E) (aIdx : ℕ) : ℕ → ℕ → ℕ → ℕ
  | 0, i, _ => i
  | fuel + 1, i, j =>
    if i ≤ j ∧ less (sGet l i) (sGet l aIdx) = true then
      partAdvanceI less l aIdx fuel (i + 1) j
    else i

/-- Retreat `j` while `i <= j && !data.Less(j, a)`; fuel ≥ `j + 1` suffices.
(`i ≥ 1` whenever this is reached, so `j` never needs to go below 0.) -/
def partRetreatJ (less : E → E → Bool) (l : List E) (aIdx : ℕ) : ℕ → ℕ → ℕ → ℕ
  | 0, _, j => j
  | fuel + 1, i, j =>
    if i ≤ j ∧ ¬ less (sGet l j) (sGet l aIdx) = true then
      partRetreatJ less l aIdx fuel i (j - 1)
    else j

/-- Main loop of `partition_func` (after the first advance/retreat/swap);
one fuel per iteration, `fuel ≥ b` suffices. -/
def partitionLoop (less : E → E → Bool) (aIdx fuelIn : ℕ) :
    ℕ → List E → ℕ → ℕ → List E × ℕ × ℕ
  | 0, l, i, j => (l, i, j)
  | fuel + 1, l, i, j =>
    let i := partAdvanceI less l aIdx fuelIn i j
    let j := partRetreatJ less l aIdx fuelIn i j
    if i > j then (l, i, j)
    else partitionLoop less aIdx fuelIn fuel (sSwap l i j) (i + 1) (j - 1)

/-- `partition_func(data, a, b, pivot)`: Hoare-style partition around the
element moved to position `a`; returns (slice, newpivot, alreadyPartitioned). -/
def partitionFunc (less : E → E → Bool) (a b pivot : ℕ) (l : List E) :
    List E × ℕ × Bool :=
  let l := sSwap l a pivot
  let i := a + 1
  let j := b - 1
  let i := partAdvanceI less l a (b + 1) i j
  let j := partRetreatJ less l a (b + 1) i j
  if i > j then (sSwap l j a, j, true)
  else
    let l := sSwap l i j
    let (l, _, j2) := partitionLoop less a (b + 1) (b + 1) l (i + 1) (j - 1)
    (sSwap l j2 a, j2, false)

/-- Advance `i` while `i <= j && !data.Less(a, i)` (`partitionEqual_func`). -/
def partEqAdvanceI (less : E → E → Bool) (l : List E) (aIdx : ℕ) : ℕ → ℕ → ℕ → ℕ
  | 0, i, _ => i
  | fuel + 1, i, j =>
    if i ≤ j ∧ ¬ less (sGet l aIdx) (sGet l i) = true then
      partEqAdvanceI less l aIdx fuel (i + 1) j
    else i

/-- Retreat `j` while `i <= j && data.Less(a, j)` (`partitionEqual_func`). -/
def partEqRetreatJ (less : E → E → Bool) (l : List E) (aIdx : ℕ) : ℕ → ℕ → ℕ → ℕ
  | 0, _, j => j
  | fuel + 1, i, j =>
    if i ≤ j ∧ less (sGet l aIdx) (sGet l j) = true then
      partEqRetreatJ less l aIdx fuel i (j - 1)
    else j

/-- Loop of `partitionEqual_func`; returns (slice, i, j). -/
def partitionEqualLoop (less : E → E → Bool) (aIdx fuelIn : ℕ) :
    ℕ → List E → ℕ → ℕ → List E × ℕ × ℕ
  | 0, l, i, j => (l, i, j)
  | fuel + 1, l, i, j =>
    let i := partEqAdvanceI less l aIdx fuelIn i j
    let j := partEqRetreatJ less l aIdx fuelIn i j
    if i > j then (l, i, j)
    else partitionEqualLoop less aIdx fuelIn fuel (sSwap l i j) (i + 1) (j - 1)

/-- `partitionEqual_func(data, a, b, pivot)`: partitions the range into elements
equal to and greater than the pivot; returns (slice, newpivot = final i). -/
def partitionEqualFunc (less : E → E → Bool) (a b pivot : ℕ) (l : List E) :
    List E × ℕ :=
  let l := sSwap l a pivot
  let (l2, i2, _) := partitionEqualLoop less a (b + 1) (b + 1) l (a + 1) (b - 1)
  (l2, i2)

/-- Advance loop of `partialInsertionSort_func`:
`for i < b && !data.Less(i, i-1) { i++ }`. -/
def pInsAdvance (less : E → E → Bool) (b : ℕ) (l : List E) : ℕ → ℕ → ℕ
  | 0, i => i
  | fuel + 1, i =>
    if i < b ∧ ¬ less (sGet l i) (sGet l (i - 1)) = true then
      pInsAdvance less b l fuel (i + 1)
    else i

/-- Left-shift loop of `partialInsertionSort_func`:
`for j := i-1; j >= 1; j-- { if !data.Less(j, j-1) { break }; data.Swap(j, j-1) }`. -/
def pInsShiftLeft (less : E → E → Bool) : ℕ → List E → ℕ → List E
  | 0, l, _ => l
  | fuel + 1, l, j =>
    if 1 ≤ j then
      if ¬ less (sGet l j) (sGet l (j - 1)) = true then l
      else pInsShiftLeft less fuel (sSwap l j (j - 1)) (j - 1)
    else l

/-- Right-shift loop of `partialInsertionSort_func`:
`for j := i+1; j < b; j++ { if !data.Less(j, j-1) { break }; data.Swap(j, j-1) }`. -/
def pInsShiftRight (less : E → E → Bool) (b : ℕ) : ℕ → List E → ℕ → List E
  | 0, l, _ => l
  | fuel + 1, l, j =>
    if j < b then
      if ¬ less (sGet l j) (sGet l (j - 1)) = true then l
      else pInsShiftRight less b fuel (sSwap l j (j - 1)) (j + 1)
    else l

/-- Body of `partialInsertionSort_func` (maxSteps = 5, shortestShifting = 50);
the counter is the remaining number of `j` iterations. -/
def partialInsSortLoop (less : E → E → Bool) (a b : ℕ) : ℕ → ℕ → List E → List E × Bool
  | 0, _, l => (l, false)
  | k + 1, i, l =>
    let i := pInsAdvance less b l (b + 1) i
    if i = b then (l, true)
    else if b - a < 50 then (l, false)
    else
      let l := sSwap l i (i - 1)
      let l := if i - a ≥ 2 then pInsShiftLeft less i l (i - 1) else l
      let l := if b - i ≥ 2 then pInsShiftRight less b (b + 1) l (i + 1) else l
      partialInsSortLoop less a b k i l

/-- `partialInsertionSort_func(data, a, b)`: partially sorts, returning whether
the range ended up sorted. -/
def partialInsSortFunc (less : E → E → Bool) (a b : ℕ) (l : List E) : List E × Bool :=
  partialInsSortLoop less a b 5 (a + 1) l

/-- The xorshift PRNG used by `breakPatterns_func` (`sort/sort.go`), on
`uint64` arithmetic. -/
def xorshiftNext (r : ℕ) : ℕ × ℕ :=
  let m := 2 ^ 64
  let r := (r ^^^ (r <<< 13)) % m
  let r := (r ^^^ (r >>> 7)) % m
  let r := (r ^^^ (r <<< 17)) % m
  (r, r)

/-- The three swaps of `breakPatterns_func`. -/
def breakPatternsSwaps (a length modulus : ℕ) : ℕ → ℕ → ℕ → List E → List E
  | 0, _, _, l => l
  | k + 1, rnd, i, l =>
    let (v, rnd') := xorshiftNext rnd
    let other := v &&& (modulus - 1)
    let other := if other ≥ length then other - length else other
    let idx := a + (length / 4) * 2 - 1
    breakPatternsSwaps a length modulus k rnd' (i + 1) (sSwap l (idx - 1 + i) (a + other))

/-- `breakPatterns_func(data, a, b)`: scatters three elements to break
quicksort-adverse patterns (deterministic xorshift seeded with the length). -/
def breakPatternsFunc (a b : ℕ) (l : List E) : List E :=
  let length := b - a
  if length ≥ 8 then
    let modulus := 2 ^ (Nat.size length)
    breakPatternsSwaps a length modulus 3 length 0 l
  else l

/-- `pdqsort_func(data, a, b, limit)`.  The `wasBalanced`/`wasPartitioned`
loop variables are parameters; a fresh (recursive) call passes `true, true`,
a loop continuation passes the updated values.  One fuel per loop iteration
or recursive call; every step shrinks `b - a`, so `fuel ≥ b - a + 1` suffices. -/
def pdqsortFunc (less : E → E → Bool) :
    ℕ → ℕ → ℕ → ℕ → Bool → Bool → List E → List E
  | 0, _, _, _, _, _, l => l
  | fuel + 1, a, b, limit, wasBalanced, wasPartitioned, l =>
    let length := b - a
    if length ≤ 12 then insertionSortFunc less a b l
    else if limit = 0 then heapSortFunc less a b l
    else
      let (l, limit) :=
        if ¬ wasBalanced then (breakPatternsFunc a b l, limit - 1) else (l, limit)
      let (pivot, hint) := choosePivotFunc less a b l
      let (pivot, hint, l) :=
        if hint = SortedHint.decreasing then
          ((b - 1) - (pivot - a), SortedHint.increasing, reverseRangeFunc a b l)
        else (pivot, hint, l)
      let checked :=
        if wasBalanced ∧ wasPartitioned ∧ hint = SortedHint.increasing then
          partialInsSortFunc less a b l
        else (l, false)
      if checked.2 then checked.1
      else
        let l := checked.1
        if 0 < a ∧ ¬ less (sGet l (a - 1)) (sGet l pivot) = true then
          let (l, mid) := partitionEqualFunc less a b pivot l
          pdqsortFunc less fuel mid b limit wasBalanced wasPartitioned l
        else
          let (l, mid, alreadyPartitioned) := partitionFunc less a b pivot l
          let wasPartitioned := alreadyPartitioned
          let leftLen := mid - a
          let rightLen := b - mid
          let balanceThreshold := length / 8
          let wasBalanced := decide (min leftLen rightLen ≥ balanceThreshold)
          if leftLen < rightLen then
            let l := pdqsortFunc less fuel a mid limit true true l
            pdqsortFunc less fuel (mid + 1) b limit wasBalanced wasPartitioned l
          else
            let l := pdqsortFunc less fuel (mid + 1) b limit true true l
            pdqsortFunc less fuel a mid limit wasBalanced wasPartitioned l

/-- `math/bits.Len` (number of bits of `n`), fuel-based so that it evaluates
inside the kernel; `fuel ≥ n` suffices. -/
def bitsLenAux : ℕ → ℕ → ℕ
  | 0, _ => 0
  | fuel + 1, n => if n = 0 then 0 else bitsLenAux fuel (n / 2) + 1

/-- `math/bits.Len(uint(n))`. -/
def bitsLen (n : ℕ) : ℕ := bitsLenAux n n

/-- `sort.Slice(x, less)`: `limit := bits.Len(uint(length));
pdqsort_func(lessSwap{less, swap}, 0, length, limit)`. -/
def sortSlice (less : E → E → Bool) (l : List E) : List E :=
  pdqsortFunc less (l.length + 1) 0 l.length (bitsLen l.length) true true l

end GoSort

/-!
## `determineResponseInterface` (`server.go`)

The method receiver's registry `s.contentTypeInterfaces` and the foreign
`strconv.ParseFloat` are parameters.  The local `offers` slice computed at the
top of the Go function is never read afterwards, so it has no counterpart here.
-/

/-- One iteration of the entry-parsing loop: split on `";q="`, default weight
1.0; a weight that fails to parse leaves the slot of the pre-allocated slice
at its zero value `{contentType: "", weight: 0}` (the Go `continue` skips the
assignment `acceptedContentTypes[idx] = acceptedType`). -/
def parseAcceptEntry (parseFloat : GoStr → Option ℚ) (contentType : GoStr) :
    AcceptedContentType :=
  let acceptedParts := goSplit contentType (";q=" : String).toList
  let acceptedType : AcceptedContentType := ⟨acceptedParts.headD [], 1⟩
  if 1 < acceptedParts.length then
    match parseFloat (acceptedParts.getD 1 []) with
    | none => ⟨[], 0⟩
    | some weight => ⟨acceptedType.contentType, weight⟩
  else acceptedType

/-- The `acceptedContentTypes` slice: one parsed entry per comma-separated
piece of the Accept header. -/
def parsedAccept (parseFloat : GoStr → Option ℚ) (acceptHeader : GoStr) :
    List AcceptedContentType :=
  (goSplit acceptHeader ("," : String).toList).map (parseAcceptEntry parseFloat)

/-- The scan loop of `determineResponseInterface` over the sorted entries:
exact token match, then the `minor` component alone, with `major` alone when
`minor` is `*`; single-component entries are skipped. -/
def ctScan (contentTypeInterfaces : GoStr → Option RType)
    (implementsMap : GoStr → Bool) : List AcceptedContentType → Option RType
  | [] => none
  | e :: rest =>
    let contentType := e.contentType
    if implementsMap contentType then contentTypeInterfaces contentType
    else
      let parts := goSplit contentType ("/" : String).toList
      if parts.length = 1 then ctScan contentTypeInterfaces implementsMap rest
      else if parts.getD 1 [] = ("*" : String).toList then
        if implementsMap (parts.headD []) then contentTypeInterfaces (parts.headD [])
        else ctScan contentTypeInterfaces implementsMap rest
      else
        if implementsMap (parts.getD 1 []) then contentTypeInterfaces (parts.getD 1 [])
        else ctScan contentTypeInterfaces implementsMap rest

/-- `Server.determineResponseInterface(acceptHeader, implementsMap)`
(`server.go` lines 1190–1259): empty header ⇒ `nil`; otherwise parse the
comma-separated entries with their q-weights, sort by descending weight with
`sort.Slice`, and scan for the first entry whose token satisfies a capability. -/
def determineResponseInterface (parseFloat : GoStr → Option ℚ)
    (contentTypeInterfaces : GoStr → Option RType) (acceptHeader : GoStr)
    (implementsMap : GoStr → Bool) : Option RType :=
  if acceptHeader.length = 0 then none
  else
    ctScan contentTypeInterfaces implementsMap
      (GoSort.sortSlice lessACT (parsedAccept parseFloat acceptHeader))

/-!
### Panic-instrumented mirror

Go slice indexing panics when out of range.  `determineResponseInterfaceChecked`
mirrors `determineResponseInterface` with every slice access routed through
`goIndex`, which reports an out-of-range access instead of defaulting.  (The
`sort.Slice` call cannot index out of range: the standard library only probes
indices inside `[0, len)`; it is shared between the two versions.)
-/

/-- A Go run-time panic. -/
inductive GoPanic
  | indexOutOfRange
deriving DecidableEq, Repr

/-- Checked slice indexing: `l[i]` with Go's panic on out-of-range. -/
def goIndex (l : List α) (i : ℕ) : Except GoPanic α :=
  if h : i < l.length then .ok l[i] else .error .indexOutOfRange

/-- `parseAcceptEntry` with checked indexing of `acceptedParts[0]` and
`acceptedParts[1]`; a panic propagates outward. -/
def parseAcceptEntryChecked (parseFloat : GoStr → Option ℚ) (contentType : GoStr) :
    Except GoPanic AcceptedContentType :=
  let acceptedParts := goSplit contentType (";q=" : String).toList
  match goIndex acceptedParts 0 with
  | .error e => .error e
  | .ok p0 =>
    if 1 < acceptedParts.length then
      match goIndex acceptedParts 1 with
      | .error e => .error e
      | .ok p1 =>
        match parseFloat p1 with
        | none => .ok ⟨[], 0⟩
        | some weight => .ok ⟨p0, weight⟩
    else .ok ⟨p0, 1⟩

/-- The entry-parsing loop with checked indexing, stopping at the first panic. -/
def parseEntriesChecked (parseFloat : GoStr → Option ℚ) :
    List GoStr → Except GoPanic (List AcceptedContentType)
  | [] => .ok []
  | c :: rest =>
    match parseAcceptEntryChecked parseFloat c with
    | .error e => .error e
    | .ok a =>
      match parseEntriesChecked parseFloat rest with
      | .error e => .error e
      | .ok l => .ok (a :: l)

/-- The scan loop with checked indexing of `parts[0]` and `parts[1]`. -/
def ctScanChecked (contentTypeInterfaces : GoStr → Option RType)
    (implementsMap : GoStr → Bool) :
    List AcceptedContentType → Except GoPanic (Option RType)
  | [] => .ok none
  | e :: rest =>
    if implementsMap e.contentType then .ok (contentTypeInterfaces e.contentType)
    else
      let parts := goSplit e.contentType ("/" : String).toList
      if parts.length = 1 then ctScanChecked contentTypeInterfaces implementsMap rest
      else
        match goIndex parts 1 with
        | .error er => .error er
        | .ok p1 =>
          if p1 = ("*" : String).toList then
            match goIndex parts 0 with
            | .error er => .error er
            | .ok p0 =>
              if implementsMap p0 then .ok (contentTypeInterfaces p0)
              else ctScanChecked contentTypeInterfaces implementsMap rest
          else
            if implementsMap p1 then .ok (contentTypeInterfaces p1)
            else ctScanChecked contentTypeInterfaces implementsMap rest

/-- `determineResponseInterface` with checked indexing throughout. -/
def determineResponseInterfaceChecked (parseFloat : GoStr → Option ℚ)
    (contentTypeInterfaces : GoStr → Option RType) (acceptHeader : GoStr)
    (implementsMap : GoStr → Bool) : Except GoPanic (Option RType) :=
  if acceptHeader.length = 0 then .ok none
  else
    match parseEntriesChecked parseFloat (goSplit acceptHeader ("," : String).toList) with
    | .error e => .error e
    | .ok entries =>
      ctScanChecked contentTypeInterfaces implementsMap (GoSort.sortSlice lessACT entries)

/-!
## Stable insertion sort, functionally

`insertionSort_func` bubbles element `i` left past every strictly smaller-keyed
element of the sorted prefix.  On a sorted prefix this is insertion after all
equal-keyed elements, `insW`; `isortW` folds it over the list from the left.
The bridge lemmas below prove the Go loops equal to this functional version.
-/

/-- Insert `x` into a descending-by-weight list, before the first strictly
lighter element (hence after all equal-weight elements). -/
def insW (x : AcceptedContentType) :
    List AcceptedContentType → List AcceptedContentType
  | [] => [x]
  | y :: p => if x.weight > y.weight then x :: y :: p else y :: insW x p

/-- Left fold of `insW`: a stable descending insertion sort. -/
def isortW (l : List AcceptedContentType) : List AcceptedContentType :=
  l.foldl (fun s x => insW x s) []

/-- Descending-by-weight sortedness. -/
def SortedW (l : List AcceptedContentType) : Prop :=
  l.Pairwise (fun a b => b.weight ≤ a.weight)

theorem insW_length (x : AcceptedContentType) :
    ∀ s, (insW x s).length = s.length + 1 := by
  intro s
  induction s with
  | nil => rfl
  | cons y p ih =>
    simp only [insW]
    split
    · simp
    · simp [ih]

theorem insW_append_gt (x y : AcceptedContentType) (h : x.weight > y.weight) :
    ∀ s, insW x (s ++ [y]) = insW x s ++ [y] := by
  intro s
  induction s with
  | nil => simp [insW, h]
  | cons z p ih =>
    simp only [List.cons_append, insW]
    split
    · simp
    · simp [ih]

theorem insW_of_forall_not_gt (x : AcceptedContentType) :
    ∀ s, (∀ z ∈ s, ¬ x.weight > z.weight) → insW x s = s ++ [x] := by
  intro s
  induction s with
  | nil => intro _; rfl
  | cons z p ih =>
    intro h
    simp only [insW]
    rw [if_neg (h z (by simp))]
    simp [ih fun z hz => h z (by simp [hz])]

theorem sortedW_last_le (s : List AcceptedContentType) (y : AcceptedContentType)
    (h : SortedW (s ++ [y])) : ∀ z ∈ s, y.weight ≤ z.weight := by
  intro z hz
  have := (List.pairwise_append.mp h).2.2
  exact this z hz y (by simp)

theorem insW_perm (x : AcceptedContentType) :
    ∀ s, List.Perm (insW x s) (x :: s) := by
  intro s
  induction s with
  | nil => simp [insW]
  | cons y p ih =>
    simp only [insW]
    split
    · exact List.Perm.refl _
    · exact (ih.cons y).trans (List.Perm.swap x y p)

theorem sortedW_insW (x : AcceptedContentType) :
    ∀ s, SortedW s → SortedW (insW x s) := by
  intro s
  induction s with
  | nil => intro _; simp [insW, SortedW]
  | cons y p ih =>
    intro hs
    have hy := (List.pairwise_cons.mp hs).1
    have hp := (List.pairwise_cons.mp hs).2
    simp only [insW]
    split
    · rename_i hgt
      refine List.pairwise_cons.mpr ⟨?_, hs⟩
      intro z hz
      rcases List.mem_cons.mp hz with rfl | hz'
      · exact le_of_lt hgt
      · exact le_trans (hy z hz') (le_of_lt hgt)
    · rename_i hngt
      refine List.pairwise_cons.mpr ⟨?_, ih hp⟩
      intro z hz
      have hz' := (insW_perm x p).mem_iff.mp hz
      rcases List.mem_cons.mp hz' with rfl | hz''
      · exact le_of_not_lt hngt
      · exact hy z hz''

theorem filter_insW (x : AcceptedContentType) (q : ℚ) :
    ∀ s, SortedW s →
      (insW x s).filter (fun e => e.weight = q) =
        s.filter (fun e => e.weight = q) ++ (if x.weight = q then [x] else []) := by
  intro s
  induction s with
  | nil =>
    intro _
    by_cases hx : x.weight = q <;> simp [insW, List.filter_cons, hx]
  | cons y p ih =>
    intro hs
    have hy := (List.pairwise_cons.mp hs).1
    have hp := (List.pairwise_cons.mp hs).2
    simp only [insW]
    split
    · rename_i hgt
      by_cases hx : x.weight = q
      · have hnone : (y :: p).filter (fun e => decide (e.weight = q)) = [] := by
          rw [List.filter_eq_nil_iff]
          intro z hz
          have hzle : z.weight ≤ y.weight := by
            rcases List.mem_cons.mp hz with rfl | hz'
            · exact le_refl _
            · exact hy z hz'
          have hlt : z.weight < x.weight := lt_of_le_of_lt hzle hgt
          simp only [decide_eq_true_eq]
          intro hzq
          rw [hzq, hx] at hlt
          exact lt_irrefl _ hlt
        rw [List.filter_cons_of_pos (by simp [hx])]
        simp [hnone, hx]
      · rw [List.filter_cons_of_neg (by simp [hx])]
        simp [hx]
    · rename_i hngt
      by_cases hyq : y.weight = q
      · rw [List.filter_cons_of_pos (by simp [hyq]),
          List.filter_cons_of_pos (by simp [hyq]), ih hp]
        simp
      · rw [List.filter_cons_of_neg (by simp [hyq]),
          List.filter_cons_of_neg (by simp [hyq]), ih hp]

theorem sortedW_foldl (l : List AcceptedContentType) :
    ∀ acc, SortedW acc → SortedW (l.foldl (fun s x => insW x s) acc) := by
  induction l with
  | nil => intro acc h; exact h
  | cons x rest ih =>
    intro acc h
    exact ih (insW x acc) (sortedW_insW x acc h)

theorem foldl_insW_perm (l : List AcceptedContentType) :
    ∀ acc, List.Perm (l.foldl (fun s x => insW x s) acc) (acc ++ l) := by
  induction l with
  | nil => intro acc; simp
  | cons x rest ih =>
    intro acc
    have h1 : List.Perm ((x :: rest).foldl (fun s x => insW x s) acc)
        (insW x acc ++ rest) := ih (insW x acc)
    have h2 : List.Perm (insW x acc ++ rest) ((x :: acc) ++ rest) :=
      (insW_perm x acc).append_right rest
    have h3 : List.Perm ((x :: acc) ++ rest) ((acc ++ [x]) ++ rest) :=
      ((List.perm_append_singleton x acc).symm).append_right rest
    have h4 : (acc ++ [x]) ++ rest = acc ++ x :: rest := by simp
    exact ((h1.trans h2).trans h3).trans (h4 ▸ List.Perm.refl _)

theorem filter_foldl_insW (q : ℚ) (l : List AcceptedContentType) :
    ∀ acc, SortedW acc →
      (l.foldl (fun s x => insW x s) acc).filter (fun e => e.weight = q) =
        acc.filter (fun e => e.weight = q) ++ l.filter (fun e => e.weight = q) := by
  induction l with
  | nil => intro acc _; simp
  | cons x rest ih =>
    intro acc h
    have step := filter_insW x q acc h
    calc ((x :: rest).foldl (fun s x => insW x s) acc).filter (fun e => e.weight = q)
        = (rest.foldl (fun s x => insW x s) (insW x acc)).filter (fun e => e.weight = q) := rfl
      _ = (insW x acc).filter (fun e => e.weight = q) ++
            rest.filter (fun e => e.weight = q) := ih (insW x acc) (sortedW_insW x acc h)
      _ = acc.filter (fun e => e.weight = q) ++
            (x :: rest).filter (fun e => e.weight = q) := by
          by_cases hx : x.weight = q <;> simp [step, List.filter, hx, List.append_assoc]

theorem isortW_sorted (l : List AcceptedContentType) : SortedW (isortW l) :=
  sortedW_foldl l [] (List.Pairwise.nil)

theorem isortW_perm (l : List AcceptedContentType) : List.Perm (isortW l) l := by
  simpa using foldl_insW_perm l []

theorem isortW_filter (q : ℚ) (l : List AcceptedContentType) :
    (isortW l).filter (fun e => e.weight = q) = l.filter (fun e => e.weight = q) := by
  simpa using filter_foldl_insW q l [] (List.Pairwise.nil)

/-!
## Bridge: the Go insertion sort equals `isortW`

`sort.Slice` on a slice of length ≤ 12 runs `insertionSort_func` over the whole
range; the index/swap loops are shown equal to `isortW`.
-/

theorem getD_append_cons {α : Type} (d : α) :
    ∀ (s : List α) (x : α) (t : List α), (s ++ x :: t).getD s.length d = x := by
  intro s
  induction s with
  | nil => intro x t; rfl
  | cons c s ih => intro x t; simpa using ih x t

theorem set_append_cons {α : Type} :
    ∀ (s : List α) (x : α) (t : List α) (v : α),
      (s ++ x :: t).set s.length v = s ++ v :: t := by
  intro s
  induction s with
  | nil => intro x t v; rfl
  | cons c s ih => intro x t v; simp [ih x t v]

theorem sGet_append_cons (s : List AcceptedContentType) (x : AcceptedContentType)
    (t : List AcceptedContentType) : GoSort.sGet (s ++ x :: t) s.length = x :=
  getD_append_cons _ s x t

theorem sGet_append_cons_succ (s : List AcceptedContentType)
    (y x : AcceptedContentType) (t : List AcceptedContentType) :
    GoSort.sGet (s ++ y :: x :: t) (s.length + 1) = x := by
  have h : s ++ y :: x :: t = (s ++ [y]) ++ x :: t := by simp
  have hl : s.length + 1 = (s ++ [y]).length := by simp
  rw [h, hl]
  exact getD_append_cons _ (s ++ [y]) x t

theorem sSwap_append (s : List AcceptedContentType) (y x : AcceptedContentType)
    (t : List AcceptedContentType) :
    GoSort.sSwap (s ++ y :: x :: t) (s.length + 1) s.length = s ++ x :: y :: t := by
  unfold GoSort.sSwap
  rw [sGet_append_cons s y (x :: t), sGet_append_cons_succ s y x t]
  have h1 : (s ++ y :: x :: t).set (s.length + 1) y = s ++ y :: y :: t := by
    have h : s ++ y :: x :: t = (s ++ [y]) ++ x :: t := by simp
    have hl : s.length + 1 = (s ++ [y]).length := by simp
    rw [h, hl, set_append_cons (s ++ [y]) x t y]
    simp
  rw [h1, set_append_cons s y (y :: t) x]

/-- The bubble loop of `insertionSort_func`, run at the end of a sorted prefix,
performs the stable insertion `insW`. -/
theorem insertionSortInner_eq_insW (x : AcceptedContentType) :
    ∀ (s : List AcceptedContentType), SortedW s →
      ∀ (rest : List AcceptedContentType),
        GoSort.insertionSortInner lessACT 0 (s ++ x :: rest) s.length =
          insW x s ++ rest := by
  intro s
  induction s using List.reverseRecOn with
  | nil =>
    intro _ rest
    simp [GoSort.insertionSortInner, insW]
  | append_singleton s' y ih =>
    intro hs rest
    have hs' : SortedW s' := (List.pairwise_append.mp hs).1
    have hlen : (s' ++ [y]).length = s'.length + 1 := by simp
    have hform : (s' ++ [y]) ++ x :: rest = s' ++ y :: x :: rest := by simp
    rw [hlen, hform]
    rw [GoSort.insertionSortInner]
    rw [sGet_append_cons_succ s' y x rest, sGet_append_cons s' y (x :: rest)]
    by_cases hcmp : lessACT x y = true
    · rw [if_pos ⟨Nat.succ_pos _, hcmp⟩]
      rw [sSwap_append s' y x rest]
      have hxy : x.weight > y.weight := by
        simpa [lessACT] using hcmp
      rw [ih hs' (y :: rest), insW_append_gt x y hxy s']
      simp
    · rw [if_neg (by intro hcon; exact hcmp hcon.2)]
      have hxy : ¬ x.weight > y.weight := by
        simpa [lessACT] using hcmp
      have hall : ∀ z ∈ s' ++ [y], ¬ x.weight > z.weight := by
        intro z hz
        rcases List.mem_append.mp hz with hz' | hz'
        · have hyz : y.weight ≤ z.weight := sortedW_last_le s' y hs z hz'
          exact fun hgt => hxy (lt_of_le_of_lt hyz hgt)
        · rcases List.mem_singleton.mp hz' with rfl
          exact hxy
      rw [insW_of_forall_not_gt x (s' ++ [y]) hall]
      simp

/-- The outer loop of `insertionSort_func` folds `insW` over the unsorted
suffix. -/
theorem insertionSortOuter_eq_foldl :
    ∀ (rest s : List AcceptedContentType) (fuel : ℕ), SortedW s →
      rest.length ≤ fuel →
      GoSort.insertionSortOuter lessACT 0 (s.length + rest.length) fuel
          (s ++ rest) s.length =
        rest.foldl (fun acc x => insW x acc) s := by
  intro rest
  induction rest with
  | nil =>
    intro s fuel hs _
    cases fuel with
    | zero => simp [GoSort.insertionSortOuter]
    | succ f => simp [GoSort.insertionSortOuter]
  | cons x rest' ih =>
    intro s fuel hs hfuel
    cases fuel with
    | zero => exact absurd hfuel (by simp)
    | succ f =>
      rw [GoSort.insertionSortOuter]
      rw [if_pos (by simp [Nat.lt_add_of_pos_right])]
      rw [insertionSortInner_eq_insW x s hs rest']
      have hlen : s.length + 1 = (insW x s).length := (insW_length x s).symm
      have htot : s.length + (x :: rest').length =
          (insW x s).length + rest'.length := by
        simp [insW_length]
        omega
      rw [htot, hlen]
      exact ih (insW x s) f (sortedW_insW x s hs) (Nat.le_of_succ_le_succ hfuel)

/-- `insertionSort_func` over the whole slice is the stable sort `isortW`. -/
theorem insertionSortFunc_eq_isortW (l : List AcceptedContentType) :
    GoSort.insertionSortFunc lessACT 0 l.length l = isortW l := by
  cases l with
  | nil => rfl
  | cons x rest =>
    have h := insertionSortOuter_eq_foldl rest [x] (rest.length + 1)
      (by simp [SortedW]) (Nat.le_succ _)
    simp only [List.length_singleton, List.singleton_append, Nat.add_comm 1] at h
    unfold GoSort.insertionSortFunc
    simp only [List.length_cons, Nat.sub_zero, Nat.zero_add]
    simpa [isortW] using h

/-- For slices of length ≤ 12, `sort.Slice` is its (stable) insertion sort. -/
theorem sortSlice_eq_isortW (l : List AcceptedContentType) (hlen : l.length ≤ 12) :
    GoSort.sortSlice lessACT l = isortW l := by
  unfold GoSort.sortSlice
  rw [GoSort.pdqsortFunc]
  rw [if_pos (by simpa using hlen)]
  exact insertionSortFunc_eq_isortW l

/-!
## Characterizing the scan loop
-/

/-- What the scan loop does at a single entry: `some v` means the loop returns
`v` (which may itself be Go `nil` when the satisfied token is unregistered),
`none` means it moves to the next entry. -/
def entryStep (contentTypeInterfaces : GoStr → Option RType)
    (implementsMap : GoStr → Bool) (e : AcceptedContentType) :
    Option (Option RType) :=
  if implementsMap e.contentType then some (contentTypeInterfaces e.contentType)
  else
    let parts := goSplit e.contentType ("/" : String).toList
    if parts.length = 1 then none
    else if parts.getD 1 [] = ("*" : String).toList then
      if implementsMap (parts.headD []) then some (contentTypeInterfaces (parts.headD []))
      else none
    else
      if implementsMap (parts.getD 1 []) then some (contentTypeInterfaces (parts.getD 1 []))
      else none

theorem ctScan_cons (reg : GoStr → Option RType) (impl : GoStr → Bool)
    (e : AcceptedContentType) (rest : List AcceptedContentType) :
    ctScan reg impl (e :: rest) =
      match entryStep reg impl e with
      | some v => v
      | none => ctScan reg impl rest := by
  simp only [ctScan, entryStep]
  split_ifs <;> rfl

/-- A successful scan decomposes the list into a hit-free prefix, the first
hit, and a suffix. -/
theorem ctScan_eq_some (reg : GoStr → Option RType) (impl : GoStr → Bool) :
    ∀ (l : List AcceptedContentType) (rt : RType),
      ctScan reg impl l = some rt →
      ∃ pre e post, l = pre ++ e :: post ∧
        (∀ e' ∈ pre, entryStep reg impl e' = none) ∧
        entryStep reg impl e = some (some rt) := by
  intro l
  induction l with
  | nil => intro rt h; exact absurd h (by simp [ctScan])
  | cons e rest ih =>
    intro rt h
    rw [ctScan_cons] at h
    cases hstep : entryStep reg impl e with
    | some v =>
      rw [hstep] at h
      have hv : v = some rt := h
      refine ⟨[], e, rest, by simp, by simp, ?_⟩
      rw [hstep, hv]
    | none =>
      rw [hstep] at h
      obtain ⟨pre, e', post, hsplit, hpre, hhit⟩ := ih rt h
      exact ⟨e :: pre, e', post, by simp [hsplit], by
        intro z hz
        rcases List.mem_cons.mp hz with rfl | hz'
        · exact hstep
        · exact hpre z hz', hhit⟩

/-!
## C1, C2, C10 artifacts
-/

/-- Per-route satisfaction map with `csv` and `html` both satisfied. -/
def implCsvHtml : GoStr → Bool := fun t =>
  decide (t = ("csv" : String).toList) || decide (t = ("html" : String).toList)

/-- The tie example from the spec: `"text/csv;q=0.5,text/html;q=0.5"`. -/
def csvHtmlHeader : GoStr := ("text/csv;q=0.5,text/html;q=0.5" : String).toList

/-- A 13-entry Accept header: the same two weighted entries followed by eleven
unmatched entries of default weight 1.0.  With 13 entries `sort.Slice` leaves
its insertion-sort regime, and its first partition moves the pivot entry to
the front, reordering the two equal-weight satisfied entries. -/
def accept13 : GoStr :=
  ("text/csv;q=0.5,text/html;q=0.5,x,x,x,x,x,x,x,x,x,x,x" : String).toList

/-- C1: **counterexample** to "entries with equal weight are considered in
their original header order (stable sort)".  On a 13-entry header whose first
two entries are `text/csv;q=0.5,text/html;q=0.5` (both satisfied, equal
weight), negotiation picks the HTML capability, while a scan in original
header order — what a stable sort would produce, as the second conjunct
shows — picks CSV.  `sort.Slice` is Go's pdqsort, which is not stable beyond
its 12-element insertion-sort regime. -/
theorem determineResponseInterface_unstable_at_13 :
    determineResponseInterface goParseFloat newServerInterfaces accept13 implCsvHtml
      = some RType.Htmler ∧
    ctScan newServerInterfaces implCsvHtml (parsedAccept goParseFloat accept13)
      = some RType.Csver ∧
    (parseAcceptEntry goParseFloat (("text/csv;q=0.5" : String).toList)).weight =
      (parseAcceptEntry goParseFloat (("text/html;q=0.5" : String).toList)).weight := by
  refine ⟨by decide, by decide, by decide⟩

/-- C1 (amended): for every Accept header parsing to at most 12 entries —
where `sort.Slice` runs its insertion sort, which is stable — the sorted entry
list is a descending, per-weight-order-preserving rearrangement, and any
chosen representation comes from a capability-satisfying entry of maximal
weight among all capability-satisfying entries.  Stated for every weight
parser, so it covers `strconv.ParseFloat` on every finite parse result. -/
theorem determineResponseInterface_max_weight_stable_le12
    (parseFloat : GoStr → Option ℚ) (reg : GoStr → Option RType)
    (impl : GoStr → Bool) (acceptHeader : GoStr)
    (hlen : (parsedAccept parseFloat acceptHeader).length ≤ 12) :
    (∀ q : ℚ,
      (GoSort.sortSlice lessACT (parsedAccept parseFloat acceptHeader)).filter
          (fun e => e.weight = q) =
        (parsedAccept parseFloat acceptHeader).filter (fun e => e.weight = q)) ∧
    SortedW (GoSort.sortSlice lessACT (parsedAccept parseFloat acceptHeader)) ∧
    (∀ rt : RType,
      determineResponseInterface parseFloat reg acceptHeader impl = some rt →
      ∃ e ∈ parsedAccept parseFloat acceptHeader,
        entryStep reg impl e = some (some rt) ∧
        ∀ e' ∈ parsedAccept parseFloat acceptHeader,
          entryStep reg impl e' ≠ none → e'.weight ≤ e.weight) := by
  have hsort := sortSlice_eq_isortW (parsedAccept parseFloat acceptHeader) hlen
  refine ⟨?_, ?_, ?_⟩
  · intro q
    rw [hsort]
    exact isortW_filter q _
  · rw [hsort]
    exact isortW_sorted _
  · intro rt h
    unfold determineResponseInterface at h
    by_cases hempty : acceptHeader.length = 0
    · rw [if_pos hempty] at h
      exact absurd h (by simp)
    · rw [if_neg hempty, hsort] at h
      obtain ⟨pre, e, post, hsplit, hpre, hhit⟩ := ctScan_eq_some reg impl _ rt h
      have hperm := isortW_perm (parsedAccept parseFloat acceptHeader)
      have hmem : e ∈ parsedAccept parseFloat acceptHeader := by
        refine hperm.mem_iff.mp ?_
        rw [hsplit]
        simp
      refine ⟨e, hmem, hhit, ?_⟩
      intro e' hmem' hstep'
      have hmem'' : e' ∈ isortW (parsedAccept parseFloat acceptHeader) :=
        hperm.mem_iff.mpr hmem'
      rw [hsplit] at hmem''
      rcases List.mem_append.mp hmem'' with hzpre | hz
      · exact absurd (hpre e' hzpre) hstep'
      · rcases List.mem_cons.mp hz with rfl | hzpost
        · exact le_refl _
        · have hsorted := isortW_sorted (parsedAccept parseFloat acceptHeader)
          rw [hsplit] at hsorted
          have := (List.pairwise_append.mp hsorted).2.1
          exact (List.pairwise_cons.mp this).1 e' hzpost

/-- C1 witness: the theorem applied to the spec's two-entry tie example (both
capabilities satisfied); at that length the hypothesis holds, and the chosen
capability is CSV, as the claim's example states. -/
theorem determineResponseInterface_max_weight_stable_le12_witness :
    ((parsedAccept goParseFloat csvHtmlHeader).length ≤ 12 ∧
      SortedW (GoSort.sortSlice lessACT (parsedAccept goParseFloat csvHtmlHeader))) ∧
    determineResponseInterface goParseFloat newServerInterfaces csvHtmlHeader implCsvHtml
      = some RType.Csver :=
  ⟨⟨by decide,
    (determineResponseInterface_max_weight_stable_le12 goParseFloat
      newServerInterfaces implCsvHtml csvHtmlHeader (by decide)).2.1⟩,
   by decide⟩

/-!
## C2: `text/*` wildcard resolution
-/

/-- Satisfaction map of a route whose response type satisfies only the
capability registered under the token `"html"`. -/
def implHtmlOnly : GoStr → Bool := fun t => decide (t = ("html" : String).toList)

/-- Satisfaction map with only the token `"text"` satisfied
(`server_test.go`, the `text/*` case). -/
def implTextOnly : GoStr → Bool := fun t => decide (t = ("text" : String).toList)

/-- The registry of the test server: `New`'s three entries plus
`text/xml ↦ TestXmler` and `text ↦ TestTexter` (`server_test.go`). -/
def testServerInterfaces : GoStr → Option RType := fun t =>
  if t = ("text/xml" : String).toList then some .TestXmler
  else if t = ("text" : String).toList then some .TestTexter
  else newServerInterfaces t

/-- C2: **counterexample**.  Accept `"text/*"` against a route satisfying only
the HTML capability registered under token `"html"` does *not* resolve to the
HTML capability: negotiation returns `nil`.  The wildcard branch looks up the
major component `"text"` in the satisfaction map, and `"html"` ≠ `"text"`. -/
theorem determineResponseInterface_textstar_htmlOnly_nil :
    determineResponseInterface goParseFloat newServerInterfaces
      (("text/*" : String).toList) implHtmlOnly = none ∧
    implHtmlOnly (("html" : String).toList) = true ∧
    newServerInterfaces (("html" : String).toList) = some RType.Htmler := by
  refine ⟨by decide, by decide, by decide⟩

/-- C2 (amended): an Accept header `"text/*"` resolves through the major
component: if the exact token `"text/*"` is not satisfied but the token
`"text"` is, the result is the registry entry for `"text"` (so a route
satisfying only the `"html"` token yields `nil`, not the HTML capability). -/
theorem determineResponseInterface_textstar_resolves_major
    (parseFloat : GoStr → Option ℚ) (reg : GoStr → Option RType)
    (impl : GoStr → Bool)
    (h1 : impl (("text/*" : String).toList) = false)
    (h2 : impl (("text" : String).toList) = true) :
    determineResponseInterface parseFloat reg (("text/*" : String).toList) impl =
      reg (("text" : String).toList) := by
  have e1 : determineResponseInterface parseFloat reg (("text/*" : String).toList) impl =
      ctScan reg impl [⟨("text/*" : String).toList, 1⟩] := by
    unfold determineResponseInterface
    rw [if_neg (by decide)]
    rfl
  rw [e1, ctScan_cons]
  have estep : entryStep reg impl ⟨("text/*" : String).toList, 1⟩ =
      some (reg (("text" : String).toList)) := by
    unfold entryStep
    rw [if_neg (by rw [h1]; simp)]
    have hp : goSplit (("text/*" : String).toList) (("/" : String).toList) =
        [("text" : String).toList, ("*" : String).toList] := by decide
    simp only [hp]
    rw [if_neg (by decide), if_pos (by decide), if_pos (by simpa using h2)]
    rfl
  rw [estep]

/-- C2 witness: with the test server's registry and a type satisfying only the
`"text"` token, `"text/*"` negotiates the `TestTexter` capability — the case
checked by `TestDetermineResponseInterface`. -/
theorem determineResponseInterface_textstar_resolves_major_witness :
    (implTextOnly (("text/*" : String).toList) = false ∧
      implTextOnly (("text" : String).toList) = true) ∧
    determineResponseInterface goParseFloat testServerInterfaces
      (("text/*" : String).toList) implTextOnly = some RType.TestTexter := by
  refine ⟨⟨by decide, by decide⟩, ?_⟩
  rw [determineResponseInterface_textstar_resolves_major goParseFloat
    testServerInterfaces implTextOnly (by decide) (by decide)]
  decide

/-!
## C10: no panic in `determineResponseInterface`
-/

theorem goIndex_ok {α : Type} (l : List α) (i : ℕ) (d : α) (h : i < l.length) :
    goIndex l i = .ok (l.getD i d) := by
  unfold goIndex
  rw [dif_pos h]
  congr 1
  rw [List.getD_eq_getElem l d h]

theorem goIndex_zero_ok {α : Type} (l : List α) (d : α) (h : l ≠ []) :
    goIndex l 0 = .ok (l.headD d) := by
  cases l with
  | nil => exact absurd rfl h
  | cons a t =>
    unfold goIndex
    rw [dif_pos (by simp)]
    rfl

theorem parseAcceptEntryChecked_ok (parseFloat : GoStr → Option ℚ) (ct : GoStr) :
    parseAcceptEntryChecked parseFloat ct = .ok (parseAcceptEntry parseFloat ct) := by
  simp only [parseAcceptEntryChecked, parseAcceptEntry]
  have hne := goSplit_ne_nil ct (";q=" : String).toList
  rw [goIndex_zero_ok _ [] hne]
  dsimp only
  by_cases hlen : 1 < (goSplit ct (";q=" : String).toList).length
  · rw [if_pos hlen, if_pos hlen, goIndex_ok (goSplit ct (";q=" : String).toList) 1 [] hlen]
    dsimp only
    cases parseFloat ((goSplit ct (";q=" : String).toList).getD 1 []) <;> rfl
  · rw [if_neg hlen, if_neg hlen]

theorem parseEntriesChecked_ok (parseFloat : GoStr → Option ℚ) :
    ∀ l : List GoStr,
      parseEntriesChecked parseFloat l = .ok (l.map (parseAcceptEntry parseFloat)) := by
  intro l
  induction l with
  | nil => rfl
  | cons c rest ih =>
    simp only [parseEntriesChecked, parseAcceptEntryChecked_ok, ih, List.map_cons]

theorem ctScanChecked_ok (reg : GoStr → Option RType) (impl : GoStr → Bool) :
    ∀ l : List AcceptedContentType,
      ctScanChecked reg impl l = .ok (ctScan reg impl l) := by
  intro l
  induction l with
  | nil => rfl
  | cons e rest ih =>
    simp only [ctScanChecked, ctScan]
    by_cases h1 : impl e.contentType = true
    · rw [if_pos h1, if_pos h1]
    · rw [if_neg h1, if_neg h1]
      have hne := goSplit_ne_nil e.contentType ("/" : String).toList
      by_cases h2 : (goSplit e.contentType ("/" : String).toList).length = 1
      · rw [if_pos h2, if_pos h2]
        exact ih
      · rw [if_neg h2, if_neg h2]
        have hlen : 1 < (goSplit e.contentType ("/" : String).toList).length := by
          have h0 : (goSplit e.contentType ("/" : String).toList).length ≠ 0 :=
            fun h => hne (List.length_eq_zero.mp h)
          omega
        rw [goIndex_ok (goSplit e.contentType ("/" : String).toList) 1 [] hlen]
        dsimp only
        by_cases h3 : (goSplit e.contentType ("/" : String).toList).getD 1 [] =
            ("*" : String).toList
        · rw [if_pos h3, if_pos h3, goIndex_zero_ok _ [] hne]
          dsimp only
          by_cases h4 : impl ((goSplit e.contentType ("/" : String).toList).headD []) = true
          · rw [if_pos h4, if_pos h4]
          · rw [if_neg h4, if_neg h4]
            exact ih
        · rw [if_neg h3, if_neg h3]
          by_cases h5 : impl ((goSplit e.contentType ("/" : String).toList).getD 1 []) = true
          · rw [if_pos h5, if_pos h5]
          · rw [if_neg h5, if_neg h5]
            exact ih

/-- C10: for every Accept header — including entries with no `/` separator
(such as `"DONTPANIC"`) and entries whose q-weight fails to parse — the
panic-instrumented `determineResponseInterface` returns normally (never
panics) and agrees with the plain embedding; on the test's `"DONTPANIC"`
header it returns `nil`. -/
theorem determineResponseInterface_no_panic :
    (∀ (parseFloat : GoStr → Option ℚ) (reg : GoStr → Option RType)
        (acceptHeader : GoStr) (impl : GoStr → Bool),
      determineResponseInterfaceChecked parseFloat reg acceptHeader impl =
        .ok (determineResponseInterface parseFloat reg acceptHeader impl)) ∧
    determineResponseInterface goParseFloat testServerInterfaces
      (("DONTPANIC" : String).toList)
      (fun t => decide (t = ("text/xml" : String).toList)) = none ∧
    determineResponseInterface goParseFloat newServerInterfaces
      (("text/csv;q=NOTAFLOAT,text/html" : String).toList) implCsvHtml
      = some RType.Htmler := by
  refine ⟨?_, by decide, by decide⟩
  intro parseFloat reg acceptHeader impl
  unfold determineResponseInterfaceChecked determineResponseInterface
  by_cases hempty : acceptHeader.length = 0
  · simp [hempty]
  · simp only [hempty, if_false]
    rw [parseEntriesChecked_ok]
    exact ctScanChecked_ok reg impl _

/-!
## The `ApplyRoute` dispatcher (`server.go` lines 1262–1492)

The handler closure registered on the mux is embedded as a trace-producing
function.  Middlewares are state transformers `St → St × Option ErrCode`
(`Middleware func(req *Request) *Error`; the abstract `St` stands for the
mutable `*Request`).  Foreign effects appear as oracle fields of
`DispatchCtx`: the outcome of `readBody` (settled separately by the `readBody`
embedding below), the handler's error result, and whether `ws.UpgradeHTTP`
fails.  Every observable step appends an event.
-/

/-- `Error.Code` of the `Error` struct (the optional wrapped `error` is not
observable in the claims). -/
abbrev ErrCode := ℕ

/-- `Middleware func(req *Request) *Error`. -/
abbrev MW (St : Type) := St → St × Option ErrCode

/-- Observable events of one dispatch. -/
inductive Ev
  | sessionLoad
  | readBodyCall
  | mwServer (i : ℕ)
  | mwRoute (i : ℕ)
  | errorApply (code : ErrCode)
  | esHeaders
  | esProducerStart
  | chanMakeIn
  | wsUpgradeAttempt
  | wsHandlerStart
  | handlerCall
  | sessionSave
  | writeResponse
deriving DecidableEq, Repr

/-- One `for _, mw := range`-loop of `runMiddlewares`: each middleware runs in
order; a non-nil error calls `s.errorHandler.Apply` and returns it. -/
def runMWList {St : Type} (tag : ℕ → Ev) :
    List (MW St) → St → ℕ → St × Option ErrCode × List Ev
  | [], st, _ => (st, none, [])
  | mw :: rest, st, i =>
    match mw st with
    | (st', some c) => (st', some c, [tag i, .errorApply c])
    | (st', none) =>
      let (st'', r, evs) := runMWList tag rest st' (i + 1)
      (st'', r, tag i :: evs)

/-- The `runMiddlewares` closure (`server.go` lines 1300–1317): the server-level
loop, then the route-level loop; a non-nil error from either returns
immediately. -/
def runMiddlewaresF {St : Type} (smws rmws : List (MW St)) (st : St) :
    St × Option ErrCode × List Ev :=
  match runMWList Ev.mwServer smws st 0 with
  | (st1, some c, evs1) => (st1, some c, evs1)
  | (st1, none, evs1) =>
    let (st2, r, evs2) := runMWList Ev.mwRoute rmws st1 0
    (st2, r, evs1 ++ evs2)

/-- Declarative first-error run of a middleware list: thread the state until
the first non-nil error, counting the middlewares invoked. -/
def chainRun {St : Type} : List (MW St) → St → St × Option ErrCode × ℕ
  | [], st => (st, none, 0)
  | f :: rest, st =>
    match f st with
    | (st', some c) => (st', some c, 1)
    | (st', none) =>
      let (st'', r, k) := chainRun rest st'
      (st'', r, k + 1)

/-- The middleware events for the first `k` positions of the concatenated
server-then-route order. -/
def mwTags (ns k : ℕ) : List Ev :=
  (List.range k).map (fun i => if i < ns then Ev.mwServer i else Ev.mwRoute (i - ns))

/-- Trailing error-delivery event of the middleware runner. -/
def errTail : Option ErrCode → List Ev
  | some c => [Ev.errorApply c]
  | none => []

/-- Inputs of one dispatched request: route configuration and request data,
with foreign outcomes as oracles. -/
structure DispatchCtx (St : Type) where
  serverMWs : List (MW St)
  routeMWs : List (MW St)
  hasEventStream : Bool
  hasWebsocket : Bool
  handlers : Verb → Bool
  reg : GoStr → Option RType
  impl : GoStr → Bool
  isReader : Bool
  parseFloat : GoStr → Option ℚ
  method : GoStr
  accept : GoStr
  upgradeHeader : GoStr
  readBodyErr : Option ErrCode
  handlerErr : Option ErrCode
  upgradeFails : Bool
  initState : St

/-- The handler closure of `ApplyRoute` (`server.go` lines 1280–1488) as a
trace.  Branch order follows the source: session load, verb parse (501),
handler lookup (405), the event-stream branch, the websocket branch, response
negotiation (406), body decode (via `readBody`), middlewares, handler,
session save and response write. -/
def ApplyRoute {St : Type} (c : DispatchCtx St) : List Ev :=
  let evs0 := [Ev.sessionLoad]
  match ParseVerb c.method with
  | none => evs0 ++ [.errorApply 501]
  | some verb =>
    if ¬ c.handlers verb then evs0 ++ [.errorApply 405]
    else if c.accept = ("text/event-stream" : String).toList ∧ c.hasEventStream then
      match c.readBodyErr with
      | some code => evs0 ++ [.readBodyCall, .errorApply code]
      | none =>
        match runMiddlewaresF c.serverMWs c.routeMWs c.initState with
        | (_, some code, mwEvs) =>
          evs0 ++ [.readBodyCall] ++ mwEvs ++ [.errorApply code]
        | (_, none, mwEvs) =>
          evs0 ++ [.readBodyCall] ++ mwEvs ++ [.esHeaders, .esProducerStart]
    else if c.upgradeHeader = ("websocket" : String).toList ∧ c.hasWebsocket then
      match runMiddlewaresF c.serverMWs c.routeMWs c.initState with
      | (_, some code, mwEvs) => evs0 ++ mwEvs ++ [.errorApply code]
      | (_, none, mwEvs) =>
        if c.upgradeFails then
          evs0 ++ mwEvs ++ [.chanMakeIn, .wsUpgradeAttempt, .errorApply 500]
        else
          evs0 ++ mwEvs ++ [.chanMakeIn, .wsUpgradeAttempt, .wsHandlerStart]
    else
      let responseInterface :=
        determineResponseInterface c.parseFloat c.reg c.accept c.impl
      if responseInterface = none ∧ ¬ c.isReader then evs0 ++ [.errorApply 406]
      else
        match c.readBodyErr with
        | some code => evs0 ++ [.readBodyCall, .errorApply code]
        | none =>
          match runMiddlewaresF c.serverMWs c.routeMWs c.initState with
          | (_, some code, mwEvs) =>
            evs0 ++ [.readBodyCall] ++ mwEvs ++ [.errorApply code]
          | (_, none, mwEvs) =>
            match c.handlerErr with
            | some code =>
              evs0 ++ [.readBodyCall] ++ mwEvs ++ [.handlerCall, .errorApply code]
            | none =>
              evs0 ++ [.readBodyCall] ++ mwEvs ++
                [.handlerCall, .sessionSave, .writeResponse]

/-- `runMWList` is the declarative first-error run with consecutive tags. -/
theorem runMWList_eq_chainRun {St : Type} (tag : ℕ → Ev) :
    ∀ (l : List (MW St)) (st : St) (i : ℕ),
      runMWList tag l st i =
        ((chainRun l st).1, (chainRun l st).2.1,
          ((List.range (chainRun l st).2.2).map (fun j => tag (i + j))) ++
            errTail (chainRun l st).2.1) := by
  intro l
  induction l with
  | nil => intro st i; simp [runMWList, chainRun, errTail]
  | cons mw rest ih =>
    intro st i
    simp only [runMWList, chainRun]
    cases hmw : mw st with
    | mk st' r =>
      cases r with
      | some c =>
        dsimp only
        simp [errTail, List.range_succ]
      | none =>
        dsimp only
        rw [ih st' (i + 1)]
        simp only [List.range_succ_eq_map, List.map_cons, List.map_map]
        refine Prod.ext rfl (Prod.ext rfl ?_)
        simp only [Nat.add_zero, List.cons_append]
        have hm : List.map (fun j => tag (i + 1 + j)) (List.range (chainRun rest st').2.2)
            = List.map ((fun j => tag (i + j)) ∘ Nat.succ)
                (List.range (chainRun rest st').2.2) := by
          refine List.map_congr_left ?_
          intro a _
          simp only [Function.comp_apply]
          exact congrArg tag (by omega)
        rw [hm]

/-- `chainRun` over a concatenation: the second list runs only when the first
finishes without error. -/
theorem chainRun_append {St : Type} :
    ∀ (l₁ l₂ : List (MW St)) (st : St),
      chainRun (l₁ ++ l₂) st =
        match chainRun l₁ st with
        | (st', some c, k) => (st', some c, k)
        | (st', none, k) =>
          ((chainRun l₂ st').1, (chainRun l₂ st').2.1, k + (chainRun l₂ st').2.2) := by
  intro l₁
  induction l₁ with
  | nil => intro l₂ st; simp [chainRun]
  | cons f rest ih =>
    intro l₂ st
    simp only [List.cons_append, chainRun]
    cases hf : f st with
    | mk st' r =>
      cases r with
      | some c => dsimp only
      | none =>
        dsimp only
        rw [List.append_eq, ih l₂ st']
        cases hr : chainRun rest st' with
        | mk st'' rk =>
          cases rk with
          | mk r2 k2 =>
            cases r2 with
            | some c => dsimp only
            | none =>
              dsimp only
              rw [Nat.add_right_comm]

/-- The number of middlewares a `chainRun` invokes never exceeds the list
length. -/
theorem chainRun_count_le {St : Type} :
    ∀ (l : List (MW St)) (st : St), (chainRun l st).2.2 ≤ l.length := by
  intro l
  induction l with
  | nil => intro st; simp [chainRun]
  | cons f rest ih =>
    intro st
    simp only [chainRun]
    cases hf : f st with
    | mk st' r =>
      cases r with
      | some c => simp
      | none => simpa using ih st'

/-- A `chainRun` that finds no error invokes every middleware. -/
theorem chainRun_none_count {St : Type} :
    ∀ (l : List (MW St)) (st : St),
      (chainRun l st).2.1 = none → (chainRun l st).2.2 = l.length := by
  intro l
  induction l with
  | nil => intro st _; rfl
  | cons f rest ih =>
    intro st h
    simp only [chainRun] at h ⊢
    cases hf : f st with
    | mk st' r =>
      rw [hf] at h
      cases r with
      | some c => simp at h
      | none =>
        dsimp only at h ⊢
        rw [ih st' h, List.length_cons]

theorem mwTags_of_le (ns k : ℕ) (h : k ≤ ns) :
    mwTags ns k = (List.range k).map Ev.mwServer := by
  unfold mwTags
  refine List.map_congr_left ?_
  intro i hi
  rw [if_pos (lt_of_lt_of_le (List.mem_range.mp hi) h)]

theorem mwTags_add (ns k : ℕ) :
    mwTags ns (ns + k) =
      (List.range ns).map Ev.mwServer ++ (List.range k).map Ev.mwRoute := by
  unfold mwTags
  rw [List.range_add, List.map_append, List.map_map]
  congr 1
  · refine List.map_congr_left ?_
    intro i hi
    rw [if_pos (List.mem_range.mp hi)]
  · refine List.map_congr_left ?_
    intro i _
    simp [Function.comp, Nat.add_sub_cancel_left]

/-- `runMiddlewaresF` equals the first-error run of the concatenated
server-then-route list, with events in registration order and the error (when
any) delivered to the error handler. -/
theorem runMiddlewaresF_eq_chainRun {St : Type}
    (smws rmws : List (MW St)) (st : St) :
    runMiddlewaresF smws rmws st =
      ((chainRun (smws ++ rmws) st).1, (chainRun (smws ++ rmws) st).2.1,
        mwTags smws.length (chainRun (smws ++ rmws) st).2.2 ++
          errTail (chainRun (smws ++ rmws) st).2.1) := by
  unfold runMiddlewaresF
  rw [runMWList_eq_chainRun Ev.mwServer smws st 0,
    chainRun_append smws rmws st]
  have hle := chainRun_count_le smws st
  have hnone := chainRun_none_count smws st
  cases hs : chainRun smws st with
  | mk st1 rk =>
    cases rk with
    | mk r1 k1 =>
      rw [hs] at hle hnone
      dsimp only at hle hnone
      cases r1 with
      | some c =>
        dsimp only
        rw [mwTags_of_le smws.length k1 hle]
        simp [errTail]
      | none =>
        have hk1 : k1 = smws.length := hnone rfl
        subst hk1
        dsimp only
        rw [runMWList_eq_chainRun Ev.mwRoute rmws st1 0]
        cases hr : chainRun rmws st1 with
        | mk st2 rk2 =>
          cases rk2 with
          | mk r2 k2 =>
            dsimp only
            rw [mwTags_add smws.length k2]
            cases r2 <;> simp [errTail]

/-!
## C3: middleware ordering and first-error halting
-/

/-- Every element of `mwTags` is a middleware event. -/
theorem mem_mwTags {ns k : ℕ} {e : Ev} (h : e ∈ mwTags ns k) :
    (∃ i, e = Ev.mwServer i) ∨ ∃ i, e = Ev.mwRoute i := by
  simp only [mwTags, List.mem_map, List.mem_range] at h
  obtain ⟨i, -, hi⟩ := h
  split at hi
  · exact .inl ⟨i, hi.symm⟩
  · exact .inr ⟨_, hi.symm⟩

/-- C3: all server-level middlewares run in registration order, then all
route-level middlewares in registration order; the first middleware returning
a non-nil error halts the chain — its error is handed to the error handler and
neither later middlewares nor the handler run.  (In the main dispatch path the
error handler is in fact applied twice, once inside `runMiddlewares` and once
at its call site, as the trace shows.) -/
theorem runMiddlewares_order_first_error_halts :
    (∀ (St : Type) (smws rmws : List (MW St)) (st : St),
      runMiddlewaresF smws rmws st =
        ((chainRun (smws ++ rmws) st).1, (chainRun (smws ++ rmws) st).2.1,
          mwTags smws.length (chainRun (smws ++ rmws) st).2.2 ++
            errTail (chainRun (smws ++ rmws) st).2.1)) ∧
    (∀ (St : Type) (smws rmws : List (MW St)) (st : St),
      (chainRun (smws ++ rmws) st).2.1 = none →
      (chainRun (smws ++ rmws) st).2.2 = smws.length + rmws.length) ∧
    (∀ (St : Type) (c : DispatchCtx St) (v : Verb) (code : ErrCode),
      ParseVerb c.method = some v →
      c.handlers v = true →
      ¬ (c.accept = ("text/event-stream" : String).toList ∧ c.hasEventStream = true) →
      ¬ (c.upgradeHeader = ("websocket" : String).toList ∧ c.hasWebsocket = true) →
      ¬ (determineResponseInterface c.parseFloat c.reg c.accept c.impl = none ∧
          ¬ c.isReader = true) →
      c.readBodyErr = none →
      (chainRun (c.serverMWs ++ c.routeMWs) c.initState).2.1 = some code →
      ApplyRoute c =
        [Ev.sessionLoad, Ev.readBodyCall] ++
          mwTags c.serverMWs.length
            (chainRun (c.serverMWs ++ c.routeMWs) c.initState).2.2 ++
          [Ev.errorApply code, Ev.errorApply code] ∧
      Ev.handlerCall ∉ ApplyRoute c) := by
  refine ⟨fun St smws rmws st => runMiddlewaresF_eq_chainRun smws rmws st,
    ?_, ?_⟩
  · intro St smws rmws st h
    rw [chainRun_none_count (smws ++ rmws) st h]
    simp
  · intro St c v code hverb hhand hes hws hneg hbody herr
    have htrace : ApplyRoute c =
        [Ev.sessionLoad, Ev.readBodyCall] ++
          mwTags c.serverMWs.length
            (chainRun (c.serverMWs ++ c.routeMWs) c.initState).2.2 ++
          [Ev.errorApply code, Ev.errorApply code] := by
      unfold ApplyRoute
      rw [hverb]
      dsimp only
      rw [if_neg (by simp [hhand]), if_neg (by simpa using hes),
        if_neg (by simpa using hws), if_neg (by simpa using hneg), hbody]
      dsimp only
      rw [runMiddlewaresF_eq_chainRun, herr]
      dsimp only [errTail]
      simp
    refine ⟨htrace, ?_⟩
    rw [htrace]
    intro hmem
    rcases List.mem_append.mp hmem with h12 | h3
    · rcases List.mem_append.mp h12 with h1 | h2
      · simp at h1
      · rcases mem_mwTags h2 with ⟨i, hi⟩ | ⟨i, hi⟩ <;> exact Ev.noConfusion hi
    · simp at h3

/-- Event-stream dispatch context with one server middleware, used to exhibit
the middleware run in the push-stream branch. -/
def esCtx : DispatchCtx Unit where
  serverMWs := [fun st => (st, none)]
  routeMWs := []
  hasEventStream := true
  hasWebsocket := false
  handlers := fun _ => true
  reg := newServerInterfaces
  impl := implCsvHtml
  isReader := false
  parseFloat := goParseFloat
  method := ("GET" : String).toList
  accept := ("text/event-stream" : String).toList
  upgradeHeader := []
  readBodyErr := none
  handlerErr := none
  upgradeFails := false
  initState := ()

/-- C5: **counterexample** to "no server-level or route-level middleware runs
in this branch": on an event-stream request the registered server middleware
does run (event `mwServer 0`), after the one `readBody` call and before the
event loop. -/
theorem ApplyRoute_eventStream_runs_middleware :
    ApplyRoute esCtx =
      [Ev.sessionLoad, Ev.readBodyCall, Ev.mwServer 0, Ev.esHeaders,
        Ev.esProducerStart] ∧
    Ev.mwServer 0 ∈ ApplyRoute esCtx := by
  refine ⟨by decide, by decide⟩

/-- C5 (amended): in the server-push branch, body decoding runs exactly once,
right after session load; then all server- and route-level middlewares run
(first error halting the chain, the error being delivered twice); only then
are the stream headers set and the producer entered. -/
theorem ApplyRoute_eventStream_body_once_then_middlewares
    {St : Type} (c : DispatchCtx St) (v : Verb)
    (hverb : ParseVerb c.method = some v)
    (hhand : c.handlers v = true)
    (hes : c.accept = ("text/event-stream" : String).toList ∧ c.hasEventStream = true)
    (hbody : c.readBodyErr = none) :
    ApplyRoute c =
      [Ev.sessionLoad, Ev.readBodyCall] ++
        mwTags c.serverMWs.length
          (chainRun (c.serverMWs ++ c.routeMWs) c.initState).2.2 ++
        (match (chainRun (c.serverMWs ++ c.routeMWs) c.initState).2.1 with
          | some code => [Ev.errorApply code, Ev.errorApply code]
          | none => [Ev.esHeaders, Ev.esProducerStart]) ∧
    (ApplyRoute c).count Ev.readBodyCall = 1 := by
  have htrace : ApplyRoute c =
      [Ev.sessionLoad, Ev.readBodyCall] ++
        mwTags c.serverMWs.length
          (chainRun (c.serverMWs ++ c.routeMWs) c.initState).2.2 ++
        (match (chainRun (c.serverMWs ++ c.routeMWs) c.initState).2.1 with
          | some code => [Ev.errorApply code, Ev.errorApply code]
          | none => [Ev.esHeaders, Ev.esProducerStart]) := by
    unfold ApplyRoute
    rw [hverb]
    dsimp only
    rw [if_neg (by simp [hhand]), if_pos (by simpa using hes), hbody]
    dsimp only
    rw [runMiddlewaresF_eq_chainRun]
    cases hr : (chainRun (c.serverMWs ++ c.routeMWs) c.initState).2.1 <;>
      · dsimp only [errTail]
        simp
  refine ⟨htrace, ?_⟩
  rw [htrace]
  have hm : ∀ e ∈ mwTags c.serverMWs.length
      (chainRun (c.serverMWs ++ c.routeMWs) c.initState).2.2,
      e ≠ Ev.readBodyCall := by
    intro e he
    simp only [mwTags, List.mem_map, List.mem_range] at he
    obtain ⟨i, -, hi⟩ := he
    subst hi
    split <;> exact fun h => Ev.noConfusion h
  rw [List.count_append, List.count_append]
  have hz : List.count Ev.readBodyCall (mwTags c.serverMWs.length
      (chainRun (c.serverMWs ++ c.routeMWs) c.initState).2.2) = 0 :=
    List.count_eq_zero.mpr (fun h => (hm _ h) rfl)
  rw [hz]
  cases hr : (chainRun (c.serverMWs ++ c.routeMWs) c.initState).2.1 <;>
    simp [List.count_cons]

/-- Websocket dispatch context whose HTTP upgrade handshake fails. -/
def wsFailCtx : DispatchCtx Unit where
  serverMWs := []
  routeMWs := []
  hasEventStream := false
  hasWebsocket := true
  handlers := fun _ => true
  reg := newServerInterfaces
  impl := implCsvHtml
  isReader := false
  parseFloat := goParseFloat
  method := ("GET" : String).toList
  accept := []
  upgradeHeader := ("websocket" : String).toList
  readBodyErr := none
  handlerErr := none
  upgradeFails := true
  initState := ()

/-- C7: **counterexample** to "it terminates before any channels are created":
on a failed upgrade the request does terminate with the 500 error, but the
inbound channel `in` has already been allocated (`in := make(chan []byte)`
precedes `ws.UpgradeHTTP` in the source), as the trace order shows. -/
theorem ApplyRoute_wsUpgradeFail_channel_before_500 :
    ApplyRoute wsFailCtx =
      [Ev.sessionLoad, Ev.chanMakeIn, Ev.wsUpgradeAttempt, Ev.errorApply 500] ∧
    Ev.chanMakeIn ∈ ApplyRoute wsFailCtx := by
  refine ⟨by decide, by decide⟩

/-- C7 (amended): a websocket-upgrade request whose handshake fails terminates
with an internal-server-error (500) delivery; the inbound channel is allocated
just before the handshake attempt, but the duplex handler never starts (so no
outbound channel or reader goroutine is created). -/
theorem ApplyRoute_wsUpgradeFail_500_no_handler
    {St : Type} (c : DispatchCtx St) (v : Verb)
    (hverb : ParseVerb c.method = some v)
    (hhand : c.handlers v = true)
    (hes : ¬ (c.accept = ("text/event-stream" : String).toList ∧
        c.hasEventStream = true))
    (hws : c.upgradeHeader = ("websocket" : String).toList ∧ c.hasWebsocket = true)
    (hmw : (chainRun (c.serverMWs ++ c.routeMWs) c.initState).2.1 = none)
    (hfail : c.upgradeFails = true) :
    ApplyRoute c =
      [Ev.sessionLoad] ++
        mwTags c.serverMWs.length
          (chainRun (c.serverMWs ++ c.routeMWs) c.initState).2.2 ++
        [Ev.chanMakeIn, Ev.wsUpgradeAttempt, Ev.errorApply 500] ∧
    Ev.wsHandlerStart ∉ ApplyRoute c := by
  have htrace : ApplyRoute c =
      [Ev.sessionLoad] ++
        mwTags c.serverMWs.length
          (chainRun (c.serverMWs ++ c.routeMWs) c.initState).2.2 ++
        [Ev.chanMakeIn, Ev.wsUpgradeAttempt, Ev.errorApply 500] := by
    unfold ApplyRoute
    rw [hverb]
    dsimp only
    rw [if_neg (by simp [hhand]), if_neg (by simpa using hes),
      if_pos (by simpa using hws)]
    rw [runMiddlewaresF_eq_chainRun, hmw]
    dsimp only [errTail]
    rw [if_pos hfail]
    simp
  refine ⟨htrace, ?_⟩
  rw [htrace]
  intro hmem
  rcases List.mem_append.mp hmem with h12 | h3
  · rcases List.mem_append.mp h12 with h1 | h2
    · simp at h1
    · rcases mem_mwTags h2 with ⟨i, hi⟩ | ⟨i, hi⟩ <;> exact Ev.noConfusion hi
  · simp at h3

/-- C5 witness: the amended theorem applied to the concrete event-stream
context. -/
theorem ApplyRoute_eventStream_body_once_then_middlewares_witness :
    (ParseVerb esCtx.method = some Verb.GET ∧ esCtx.handlers Verb.GET = true) ∧
    (ApplyRoute esCtx).count Ev.readBodyCall = 1 :=
  ⟨⟨by decide, by decide⟩,
    (ApplyRoute_eventStream_body_once_then_middlewares esCtx Verb.GET
      (by decide) (by decide) ⟨by decide, by decide⟩ (by decide)).2⟩

/-- Websocket dispatch context (failing upgrade) with one passing server
middleware, for the C7 witness. -/
def wsFailCtxMW : DispatchCtx Unit where
  serverMWs := [fun st => (st, none)]
  routeMWs := []
  hasEventStream := false
  hasWebsocket := true
  handlers := fun _ => true
  reg := newServerInterfaces
  impl := implCsvHtml
  isReader := false
  parseFloat := goParseFloat
  method := ("GET" : String).toList
  accept := []
  upgradeHeader := ("websocket" : String).toList
  readBodyErr := none
  handlerErr := none
  upgradeFails := true
  initState := ()

/-- C7 witness: the amended theorem applied to a concrete failing-upgrade
context with one middleware. -/
theorem ApplyRoute_wsUpgradeFail_500_no_handler_witness :
    ((chainRun (wsFailCtxMW.serverMWs ++ wsFailCtxMW.routeMWs)
        wsFailCtxMW.initState).2.1 = none ∧
      wsFailCtxMW.upgradeFails = true) ∧
    Ev.wsHandlerStart ∉ ApplyRoute wsFailCtxMW :=
  ⟨⟨by decide, by decide⟩,
    (ApplyRoute_wsUpgradeFail_500_no_handler wsFailCtxMW Verb.GET
      (by decide) (by decide) (by decide) ⟨by decide, by decide⟩
      (by decide) (by decide)).2⟩

/-- Dispatch context whose single server middleware errors with 403, on the
normal (non-upgrade) path; the route middleware and handler must not run. -/
def mwErrCtx : DispatchCtx Unit where
  serverMWs := [fun st => (st, some 403)]
  routeMWs := [fun st => (st, none)]
  hasEventStream := false
  hasWebsocket := false
  handlers := fun _ => true
  reg := newServerInterfaces
  impl := implCsvHtml
  isReader := true
  parseFloat := goParseFloat
  method := ("GET" : String).toList
  accept := []
  upgradeHeader := []
  readBodyErr := none
  handlerErr := none
  upgradeFails := false
  initState := ()

/-- C3 witness: the dispatcher part of the ordering/halting theorem applied to
a concrete context whose single server middleware errors with code 403: the
handler never runs. -/
theorem runMiddlewares_order_first_error_halts_witness :
    ((chainRun (mwErrCtx.serverMWs ++ mwErrCtx.routeMWs) mwErrCtx.initState).2.1
        = some 403) ∧
    Ev.handlerCall ∉ ApplyRoute mwErrCtx :=
  ⟨by decide,
    (runMiddlewares_order_first_error_halts.2.2 Unit mwErrCtx Verb.GET 403
      (by decide) (by decide) (by decide) (by decide) (by decide) (by decide)
      (by decide)).2⟩

/-!
## Sessions (`session.go`)

`InMemorySessionStore[T]` holds `Sessions map[string]T`; reading a missing key
yields the zero value of `T` (the `zeroT` parameter below — the model covers
non-interface `T`, whose values box to a non-nil `interface{}`).  Go's `nil`
interface value is `Option.none`; a failed type assertion `data.(T)` is a
panic, modelled as `Except.error ()`. -/

/-- `InMemorySessionStore[T].Sessions` (the `sync.RWMutex` only guards
concurrent access and has no sequential effect). -/
structure InMemorySessionStore (T : Type) where
  Sessions : GoStr → Option T

/-- `Get`: `return store.Sessions[token], nil` — the zero value for a missing
key, boxed into a non-nil `interface{}`. -/
def InMemorySessionStore.Get {T : Type} (zeroT : T)
    (store : InMemorySessionStore T) (token : GoStr) :
    Option T × Option ErrCode :=
  (some ((store.Sessions token).getD zeroT), none)

/-- `Save`: `store.Sessions[token] = data.(T)` — the single-result type
assertion panics when `data` is the nil interface value, for every `T`. -/
def InMemorySessionStore.Save {T : Type} (store : InMemorySessionStore T)
    (token : GoStr) (data : Option T) :
    Except Unit (InMemorySessionStore T × Option ErrCode) :=
  match data with
  | none => .error ()
  | some v => .ok (⟨fun t => if t = token then some v else store.Sessions t⟩, none)

/-- `Delete`: `delete(store.Sessions, token)`. -/
def InMemorySessionStore.Delete {T : Type} (store : InMemorySessionStore T)
    (token : GoStr) : InMemorySessionStore T × Option ErrCode :=
  (⟨fun t => if t = token then none else store.Sessions t⟩, none)

/-- `Session[T]`: token plus `Data *T` (`none` = nil pointer). -/
structure Session (T : Type) where
  Token : GoStr
  Data : Option T

/-- `Session.load` against the reference in-memory store: set the token (from
`ParseToken`, whose result — cookie value or fresh random token — is the `tok`
argument), `Get`, and since the boxed value is non-nil, point `Data` at it.
A `Get` error would be returned, but the in-memory store never errs. -/
def Session.load {T : Type} (zeroT : T) (store : InMemorySessionStore T)
    (tok : GoStr) (sess : Session T) : Session T × Option ErrCode :=
  let (data, err) := store.Get zeroT tok
  match err with
  | some e => ({ sess with Token := tok }, some e)
  | none =>
    match data with
    | some d => ({ Token := tok, Data := some d }, none)
    | none => ({ Token := tok, Data := none }, none)

/-- `Session.save`: `Save(Token, nil)` when `Data` is nil, else
`Save(Token, *Data)`; the store's returned error is discarded; a non-empty
token schedules the renewing cookie; returns `nil`.  A store panic
propagates. -/
def Session.save {T : Type} (store : InMemorySessionStore T) (sess : Session T) :
    Except Unit (InMemorySessionStore T × Bool × Option ErrCode) :=
  match (match sess.Data with
         | none => store.Save sess.Token none
         | some d => store.Save sess.Token (some d)) with
  | .error e => .error e
  | .ok (store', _) => .ok (store', decide (sess.Token ≠ []), none)

/-- `Session.delete`: clear the store entry, expire the cookie, nil the data. -/
def Session.delete {T : Type} (store : InMemorySessionStore T) (sess : Session T) :
    InMemorySessionStore T × Session T :=
  ((store.Delete sess.Token).1, { sess with Data := none })

/-- C4: with the reference in-memory store, saving a session holding data `d`
and immediately loading with the same token yields exactly `d` again; deleting
and then loading yields the present-but-empty session value (a pointer to the
zero value of `T`). -/
theorem Session_save_load_roundtrip_and_delete
    {T : Type} (zeroT : T) (store : InMemorySessionStore T)
    (sess sess2 : Session T) (d : T) (hd : sess.Data = some d) :
    ∃ store' cookie,
      Session.save store sess = .ok (store', cookie, none) ∧
      (Session.load zeroT store' sess.Token sess2).1.Data = some d ∧
      (Session.load zeroT (Session.delete store' { sess2 with Token := sess.Token }).1
        sess.Token sess2).1.Data = some zeroT := by
  refine ⟨⟨fun t => if t = sess.Token then some d else store.Sessions t⟩,
    decide (sess.Token ≠ []), ?_, ?_, ?_⟩
  · unfold Session.save InMemorySessionStore.Save
    rw [hd]
  · unfold Session.load InMemorySessionStore.Get
    simp
  · unfold Session.load Session.delete InMemorySessionStore.Get
      InMemorySessionStore.Delete
    simp

/-- C4 witness: the round trip at `T = ℕ`, token `"tok"`, data `7`, empty
store. -/
theorem Session_save_load_roundtrip_and_delete_witness :
    (Session.mk (("tok" : String).toList) (some 7)).Data = some 7 ∧
    ∃ (store' : InMemorySessionStore ℕ) (cookie : Bool),
      Session.save ⟨fun _ => none⟩ ⟨("tok" : String).toList, some 7⟩
        = .ok (store', cookie, none) ∧
      (Session.load 0 store' (("tok" : String).toList) ⟨[], none⟩).1.Data = some 7 ∧
      (Session.load 0
        (Session.delete store' { Session.mk [] none with Token := ("tok" : String).toList }).1
        (("tok" : String).toList) ⟨[], none⟩).1.Data = some 0 :=
  ⟨rfl, Session_save_load_roundtrip_and_delete 0 ⟨fun _ => none⟩
    ⟨("tok" : String).toList, some 7⟩ ⟨[], none⟩ 7 rfl⟩

/-- C9: `InMemorySessionStore[T].Save(token, nil)` panics on the `data.(T)`
type assertion for every `T` and token; consequently `Session.save`, which
passes `nil` to the store when `Data` is nil, panics with this store whenever
the session data is nil at save time. -/
theorem InMemorySessionStore_Save_nil_panics
    {T : Type} (store : InMemorySessionStore T) (token : GoStr)
    (sess : Session T) (hnil : sess.Data = none) :
    InMemorySessionStore.Save store token (none : Option T) = .error () ∧
    Session.save store sess = .error () := by
  constructor
  · rfl
  · unfold Session.save
    rw [hnil]
    rfl

/-- C9 witness: the nil-data panic at `T = ℕ`. -/
theorem InMemorySessionStore_Save_nil_panics_witness :
    (Session.mk (("tok" : String).toList) (none : Option ℕ)).Data = none ∧
    Session.save (⟨fun _ => none⟩ : InMemorySessionStore ℕ)
      ⟨("tok" : String).toList, none⟩ = .error () :=
  ⟨rfl, (InMemorySessionStore_Save_nil_panics ⟨fun _ => none⟩
    (("tok" : String).toList) ⟨("tok" : String).toList, none⟩ rfl).2⟩

/-!
## C8: `writeWithContentEncoding` (`server.go` lines 1494–1532)
-/

/-- Observable effects of one `writeWithContentEncoding` call.  `wrote` is the
content handed to the (possibly compressing) writer; compression itself is a
foreign stream transformation with no further observable effect here. -/
structure WriteResult where
  contentEncodingSet : Option GoStr
  statusWritten : Option ℕ
  wrote : Option (List ℕ)
  returnedErr : Option Unit
deriving DecidableEq, Repr

/-- The `ENCODINGLOOP`: first recognized token among `gzip`, `deflate`, `br`
wins; `identity`'s bare `break` only leaves the `switch`, so the loop
continues scanning (as for an unrecognized token). -/
def encodingLoop : List GoStr → Option GoStr
  | [] => none
  | enc :: rest =>
    let e := goTrimSpace enc
    if e = ("gzip" : String).toList then some (("gzip" : String).toList)
    else if e = ("deflate" : String).toList then some (("deflate" : String).toList)
    else if e = ("br" : String).toList then some (("br" : String).toList)
    else encodingLoop rest

/-- `writeWithContentEncoding(content, acceptEncodingHeader, w, statusCode)`:
empty content returns `nil` immediately with no effect at all; otherwise the
negotiated `Content-Encoding` header is set, `w.WriteHeader(statusCode)` runs,
and the content is written (`writeErr` is the foreign write error). -/
def writeWithContentEncoding (content : List ℕ) (acceptEncodingHeader : GoStr)
    (statusCode : ℕ) (writeErr : Option Unit) : WriteResult :=
  if content.length = 0 then ⟨none, none, none, none⟩
  else
    let encodings := goSplit acceptEncodingHeader ("," : String).toList
    ⟨encodingLoop encodings, some statusCode, some content, writeErr⟩

/-- C8: with empty content, `writeWithContentEncoding` returns `nil`
immediately: no `Content-Encoding` header is set, the status code is never
written, and no bytes are written — so an empty-bodied response (such as the
304 of the `PublicRoute` ETag path) never gets its explicit status code
written by this function, whatever the Accept-Encoding header or status
code. -/
theorem writeWithContentEncoding_empty_writes_nothing
    (acceptEncodingHeader : GoStr) (statusCode : ℕ) (writeErr : Option Unit) :
    writeWithContentEncoding [] acceptEncodingHeader statusCode writeErr =
      ⟨none, none, none, none⟩ := by
  rfl

/-!
## C6: `readBody` (`src/unnamed/part_004`)

Foreign functions are parameters: `mime.ParseMediaType` (media type on
success; the parameter map matters only to the multipart branch, whose parser
is itself an oracle) and `json.Unmarshal` (an error or the decoded body).
The capability checks are the `(interface{}(body)).(XxxParser)` assertions,
given as booleans; each optional parser's outcome is an oracle. -/

/-- Oracles and request data consumed by one `readBody` call on a body type
`B`. -/
structure ReadBodyCtx where
  bodyNonEmpty : Bool           -- `bodyRdr.Peek(1)` succeeds
  parsedMediaType : Option GoStr -- `mime.ParseMediaType` result
  hasFormParser : Bool          -- body implements FormDataParser
  hasMultipartParser : Bool     -- body implements MultipartFormDataParser
  hasTextParser : Bool          -- body implements PlainTextParser
  formResult : Option ErrCode
  multipartResult : Option ErrCode
  textResult : Option ErrCode
  readAllOk : Bool              -- `io.ReadAll(bodyRdr)` succeeds
  jsonUnmarshalFails : Bool     -- `json.Unmarshal(reqBody, body)` errs

/-- `readBody(req, body)`: returns the `*Error` result paired with whether
`json.Unmarshal` was invoked.  An empty body short-circuits with `nil`; a
media-type parse failure is 400; the three optional parsers run only when the
body type satisfies them; `application/json` is decoded unconditionally
(ReadAll failure 500, malformed JSON 400); any other media type is 415. -/
def readBody (c : ReadBodyCtx) : Option ErrCode × Bool :=
  if ¬ c.bodyNonEmpty then (none, false)
  else
    match c.parsedMediaType with
    | none => (some 400, false)
    | some mediaType =>
      if mediaType = ("application/x-www-form-urlencoded" : String).toList then
        (if c.hasFormParser then c.formResult else none, false)
      else if mediaType = ("multipart/form-data" : String).toList then
        (if c.hasMultipartParser then c.multipartResult else none, false)
      else if mediaType = ("application/json" : String).toList then
        if ¬ c.readAllOk then (some 500, false)
        else if c.jsonUnmarshalFails then (some 400, true) else (none, true)
      else if mediaType = ("text" : String).toList then
        (if c.hasTextParser then c.textResult else none, false)
      else (some 415, false)

/-- C6: for a non-empty body whose declared media type parses to
`application/json` (and whose raw read succeeds), JSON unmarshalling is
always attempted — whatever the parser-capability booleans and their oracle
results are — and when the JSON is malformed the call fails with the
bad-request (400) condition. -/
theorem readBody_json_always_attempted_400_on_malformed
    (c : ReadBodyCtx)
    (hne : c.bodyNonEmpty = true)
    (hmt : c.parsedMediaType = some (("application/json" : String).toList))
    (hra : c.readAllOk = true) :
    (readBody c).2 = true ∧
    (c.jsonUnmarshalFails = true → (readBody c).1 = some 400) := by
  unfold readBody
  rw [hne, hmt]
  have hA : ¬ (("application/json" : String).toList =
      ("application/x-www-form-urlencoded" : String).toList) := by decide
  have hB : ¬ (("application/json" : String).toList =
      ("multipart/form-data" : String).toList) := by decide
  dsimp only
  rw [if_neg hA, if_neg hB, hra]
  cases hj : c.jsonUnmarshalFails <;> simp

/-- C6 witness: a concrete malformed-JSON request with no parser capability
satisfied. -/
theorem readBody_json_always_attempted_400_on_malformed_witness :
    (ReadBodyCtx.mk true (some (("application/json" : String).toList))
        false false false none none none true true).bodyNonEmpty = true ∧
    (readBody (ReadBodyCtx.mk true (some (("application/json" : String).toList))
        false false false none none none true true)).2 = true ∧
    (readBody (ReadBodyCtx.mk true (some (("application/json" : String).toList))
        false false false none none none true true)).1 = some 400 :=
  ⟨rfl,
    (readBody_json_always_attempted_400_on_malformed _ rfl rfl rfl).1,
    (readBody_json_always_attempted_400_on_malformed _ rfl rfl rfl).2 rfl⟩

end Webserver
